import Mathlib

/-!
Verification development for the bananadeck outline parsing, versioning and
slide-expansion subsystem.  The Python sources are shallowly embedded: strings
become `List Char`, the regex scan of `parse_presentation_skeleton` becomes an
explicit character scanner with the exact semantics of
`re.findall(r"## (Slide \d+): (.+?)(?=## |$)", text, re.DOTALL)`, and the
filesystem / remote-call effects become explicit parameters.
-/

abbrev Chars := List Char

/-- The whitespace characters stripped by Python `str.strip()` (ASCII fragment). -/
def pyWs (c : Char) : Bool :=
  c = ' ' || c = '\t' || c = '\n' || c = '\r' || c = '\x0b' || c = '\x0c'

/-- Python `s.strip()`: remove leading and trailing whitespace. -/
def pyStrip (cs : Chars) : Chars :=
  ((cs.dropWhile pyWs).reverse.dropWhile pyWs).reverse

/-- Python `s.split("\n")`: split on every newline, keeping empty pieces
(`"".split("\n") == [""]`). -/
def splitNl : Chars → List Chars
  | [] => [[]]
  | c :: cs =>
    if c = '\n' then [] :: splitNl cs
    else
      match splitNl cs with
      | [] => [[c]]
      | l :: ls => (c :: l) :: ls

/-- Python `"\n".join(parts)`. -/
def joinNl : List Chars → Chars
  | [] => []
  | [x] => x
  | x :: xs => x ++ '\n' :: joinNl xs

/-- Does `pat` occur as a contiguous substring of `cs`? -/
def hasSub (pat : Chars) : Chars → Bool
  | [] => pat.isPrefixOf []
  | c :: cs => pat.isPrefixOf (c :: cs) || hasSub pat cs

/-- One step of Python `s.replace(pat, "")`: remove all non-overlapping
occurrences of `pat`, scanning left to right (fuel-indexed; the wrapper
supplies `cs.length`, which is always sufficient). -/
def removeOccGo (pat : Chars) : Nat → Chars → Chars
  | 0, cs => cs
  | _ + 1, [] => []
  | fuel + 1, c :: cs =>
    if (!pat.isEmpty) && pat.isPrefixOf (c :: cs) then
      removeOccGo pat fuel ((c :: cs).drop pat.length)
    else c :: removeOccGo pat fuel cs

/-- Python `s.replace(pat, "")` for a non-empty pattern. -/
def removeOcc (pat cs : Chars) : Chars := removeOccGo pat cs.length cs

/-- Decimal rendering of a natural number (fuel-indexed: each step strips one
digit, so `n + 1` units of fuel always suffice). -/
def natToCharsGo : Nat → Nat → Chars
  | 0, _ => []
  | fuel + 1, n =>
    if n < 10 then [Nat.digitChar n]
    else natToCharsGo fuel (n / 10) ++ [Nat.digitChar (n % 10)]

/-- Decimal rendering of a natural number, as produced by Python `str(n)`. -/
def natToChars (n : Nat) : Chars := natToCharsGo (n + 1) n

/-! ## The regex scanner

`re.findall(r"## (Slide \d+): (.+?)(?=## |$)", text, re.DOTALL)` scans
positions left to right.  A match at a position requires the literal
`"## Slide "`, one or more digits, the literal `": "`, and then a lazy
non-empty body `(.+?)` that stops at the earliest point where the remaining
suffix starts with `"## "`, is empty (end of string), or is exactly `"\n"`
(`$` without `re.MULTILINE` also matches just before a final newline). -/

/-- The zero-width lookahead `(?=## |$)` evaluated on the remaining suffix of
the input. -/
def lookaheadOk (cs : Chars) : Bool :=
  cs.isEmpty || cs == ['\n'] || (("## ").data).isPrefixOf cs

/-- Lazy `(.+?)(?=## |$)`: split off the shortest non-empty body such that the
lookahead holds on the remainder. -/
def lazySplit : Chars → Option (Chars × Chars)
  | [] => none
  | c :: cs =>
    if lookaheadOk cs then some ([c], cs)
    else
      match lazySplit cs with
      | some (pre, post) => some (c :: pre, post)
      | none => none

/-- Attempt the whole pattern at the current position.  On success, return
(captured group 1 `"Slide <digits>"`, captured group 2 body, remaining
suffix). -/
def tryMatch (cs : Chars) : Option (Chars × Chars × Chars) :=
  if (("## Slide ").data).isPrefixOf cs then
    let after := cs.drop 9
    let ds := after.takeWhile Char.isDigit
    let rest1 := after.dropWhile Char.isDigit
    if (!ds.isEmpty) && ((": ").data).isPrefixOf rest1 then
      match lazySplit (rest1.drop 2) with
      | some (body, rest) => some ((("Slide ").data) ++ ds, body, rest)
      | none => none
    else none
  else none

/-- `re.findall` scan loop (fuel-indexed; the wrapper supplies the input
length, which is always sufficient since every match consumes at least one
character). -/
def fmGo : Nat → Chars → List (Chars × Chars)
  | 0, _ => []
  | _ + 1, [] => []
  | fuel + 1, c :: cs =>
    match tryMatch (c :: cs) with
    | some x => (x.1, x.2.1) :: fmGo fuel x.2.2
    | none => fmGo fuel cs

/-- All matches of the slide-header pattern, in order: list of
(group 1, group 2) pairs. -/
def findMarkers (cs : Chars) : List (Chars × Chars) := fmGo cs.length cs

/-! ## Data model: `parse_presentation_skeleton` output records -/

/-- One outline entry, the dict built by
`PresentationSlideGenerator.parse_presentation_skeleton`. -/
structure Slide where
  slide_number : Nat
  title : Chars
  bullet_points : List Chars
  visual_suggestion : Option Chars
deriving DecidableEq, Repr

/-- The exact visual-hint marker literal recognized by the parser. -/
def hintMarker : Chars := ("- **Visual suggestion:**").data

/-- The body of the per-line loop of `parse_presentation_skeleton`
(ppt_skeleton2slides.py lines 36-45): strip the line; a line starting with
`-` but not with the hint marker becomes a bullet; a line starting with the
hint marker sets the visual suggestion; anything else is ignored. -/
def processLine (acc : List Chars × Option Chars) (rawLine : Chars) :
    List Chars × Option Chars :=
  let line := pyStrip rawLine
  if (['-']).isPrefixOf line && !(hintMarker.isPrefixOf line) then
    (acc.1 ++ [pyStrip (line.drop 1)], acc.2)
  else if hintMarker.isPrefixOf line then
    (acc.1, some (pyStrip (removeOcc hintMarker line)))
  else acc

/-- Bullets and visual suggestion extracted from one matched body. -/
def parseBody (body : Chars) : List Chars × Option Chars :=
  (splitNl body).foldl processLine ([], none)

/-- The slide record built for the `i`-th match (1-based `i`):
title is the stripped first line of the body; the numeric label captured in
group 1 is discarded. -/
def mkSlideRec (i : Nat) (body : Chars) : Slide :=
  { slide_number := i
    title := pyStrip ((splitNl body).headD [])
    bullet_points := (parseBody body).1
    visual_suggestion := (parseBody body).2 }

/-- `for i, (slide_number, content) in enumerate(matches, 1)`. -/
def numberSlides : Nat → List (Chars × Chars) → List Slide
  | _, [] => []
  | i, m :: ms => mkSlideRec i m.2 :: numberSlides (i + 1) ms

/-- `PresentationSlideGenerator.parse_presentation_skeleton`
(ppt_skeleton2slides.py lines 18-56). -/
def parse_presentation_skeleton (markdown_content : Chars) : List Slide :=
  numberSlides 1 (findMarkers markdown_content)

/-! ## `SlideExpander._slides_to_markdown` (slides_redo.py lines 270-287) -/

/-- The markdown parts emitted for one slide: header line, one line per
bullet, the visual-suggestion line when the stored value is truthy
(Python: not `None` and not `""`), and a trailing empty part. -/
def slideToLines (s : Slide) : List Chars :=
  (("## Slide ").data ++ natToChars s.slide_number ++ (": ").data ++ s.title)
    :: (s.bullet_points.map (fun b => ("- ").data ++ b)
      ++ (match s.visual_suggestion with
          | some v => if v.isEmpty then [] else [hintMarker ++ ' ' :: v]
          | none => [])
      ++ [[]])

/-- `SlideExpander._slides_to_markdown`: header part then the per-slide parts,
joined with newlines. -/
def slides_to_markdown (slides : List Slide) : Chars :=
  joinNl ((("# Expanded Presentation\n").data) :: (slides.map slideToLines).flatten)

/-! ## `SlideExpander.create_expanded_presentation` (slides_redo.py 224-268) -/

/-- The target-locating loop: first index whose record has the requested
`slide_number`, if any. -/
def findSlideIdx : List Slide → Nat → Option Nat
  | [], _ => none
  | s :: rest, n =>
    if s.slide_number = n then some 0 else (findSlideIdx rest n).map (· + 1)

/-- `for i, expanded_slide in enumerate(expanded_slides)`: the `i`-th batch
entry gets `slide_number = target_slide_index + i + 1`. -/
def rbGo (idx : Nat) : Nat → List Slide → List Slide
  | _, [] => []
  | i, e :: es => { e with slide_number := idx + i + 1 } :: rbGo idx (i + 1) es

/-- Renumbered replacement batch. -/
def renumberBatch (idx : Nat) (expanded : List Slide) : List Slide :=
  rbGo idx 0 expanded

/-- The splice-and-renumber step of `create_expanded_presentation` on the
parsed slide list: prefix unchanged, renumbered batch, suffix with
`slide_number + 2` (the hard-coded net delta for replacing 1 slide by 3);
`none` models the `ValueError` raised when the target is absent. -/
def create_expanded_slides (original_slides : List Slide) (slide_number : Nat)
    (expanded : List Slide) : Option (List Slide) :=
  match findSlideIdx original_slides slide_number with
  | none => none
  | some idx =>
    some (original_slides.take idx
      ++ renumberBatch idx expanded
      ++ (original_slides.drop (idx + 1)).map
          (fun s => { s with slide_number := s.slide_number + 2 }))

/-- `SlideExpander.create_expanded_presentation`: parse the original
presentation text, splice, and serialize back to markdown. -/
def create_expanded_presentation (original_presentation : Chars)
    (slide_number : Nat) (expanded : List Slide) : Option Chars :=
  (create_expanded_slides (parse_presentation_skeleton original_presentation)
      slide_number expanded).map slides_to_markdown

/-! ## `SlideExpander.expand_slide_content` (slides_redo.py 180-222) -/

/-- The `(Part k)` disambiguating title. -/
def partTitle (s : Slide) (k : Nat) : Chars :=
  s.title ++ (" (Part ").data ++ natToChars k ++ (")").data

/-- The `while len(expanded_slides) < 3` padding loop (fuel 3 suffices: each
iteration appends one entry). -/
def padLoop : Nat → List Slide → Slide → List Slide
  | 0, es, _ => es
  | fuel + 1, es, slide =>
    if es.length < 3 then
      padLoop fuel (es ++ [{ slide with title := partTitle slide (es.length + 1) }]) slide
    else es

/-- Pad the parsed batch with `(Part k)` copies of the target slide. -/
def padSlides (es : List Slide) (slide : Slide) : List Slide := padLoop 3 es slide

/-- `expand_slide_content`: the generation call either raises (`.error`) or
returns response text (`.ok`).  On success the text is parsed and the batch is
normalized to exactly 3 entries (truncate or pad); on failure the body of the
`except` clause builds 3 `(Part k)` copies of the target slide. -/
def expand_slide_content (slide : Slide) (callResult : Except Unit Chars) :
    List Slide :=
  match callResult with
  | .ok txt =>
    let expanded_slides := parse_presentation_skeleton txt
    if expanded_slides.length ≠ 3 then
      if expanded_slides.length > 3 then expanded_slides.take 3
      else padSlides expanded_slides slide
    else expanded_slides
  | .error _ =>
    (List.range 3).map (fun i => { slide with title := partTitle slide (i + 1) })

/-! ## Version allocation (`expand_slide_workflow`, slides_redo.py 437-447)

The loop starts at `version_num = 1` and increments while
`base_dir/v{version_num}` exists.  The directory state is modelled as a
boolean existence predicate; the loop terminates exactly when some
`v{n}` with `n ≥ 1` is free, which the hypothesis supplies. -/

/-- The scan loop: least `n ≥ 1` such that `v{n}` does not exist. -/
def findNextVersionNum (ex : Nat → Bool) (h : ∃ n, ex (n + 1) = false) : Nat :=
  Nat.find h + 1

/-- Filesystem state of the base directory after creating the version
directories in `created`. -/
def mkdirList (created : List Nat) : Nat → Bool := fun n => created.contains n

def le_foldr_max (l : List Nat) : ∀ x ∈ l, x ≤ l.foldr max 0 := by
  induction l with
  | nil => intro x hx; exact absurd hx (List.not_mem_nil x)
  | cons a l ih =>
    intro x hx
    have hfold : (a :: l).foldr max 0 = max a (l.foldr max 0) := rfl
    rcases List.mem_cons.mp hx with rfl | hx
    · rw [hfold]; exact le_max_left _ _
    · rw [hfold]; exact le_trans (ih x hx) (le_max_right _ _)

def allocFree (created : List Nat) :
    ∃ n, mkdirList created (n + 1) = false := by
  refine ⟨created.foldr max 0, ?_⟩
  cases h : mkdirList created (created.foldr max 0 + 1) with
  | false => rfl
  | true =>
    exfalso
    have hmem : (created.foldr max 0 + 1) ∈ created := by
      have hc : created.contains (created.foldr max 0 + 1) = true := h
      simpa using hc
    have := le_foldr_max created _ hmem
    omega

/-- `N` successive allocations against an initially empty base directory,
each followed by `mkdir` of the returned version directory (single writer). -/
def allocRun : Nat → List Nat
  | 0 => []
  | n + 1 =>
    let prev := allocRun n
    prev ++ [findNextVersionNum (mkdirList prev) (allocFree prev)]

/-! ## Slide renderer (`generate_image_prompt`, `generate_slide_image`)

`ppt_skeleton2slides.py` holds the in-repository renderer.  The remote call
and filesystem writes are modelled explicitly: the generation call either
raises (`.error`) or yields the parts of the first candidate's content, each
part carrying optional text and optional inline image data. -/

/-- `enumerate(bullet_points, 1)`: the numbered bullet lines of the prompt. -/
def numberedBullets : Nat → List Chars → List Chars
  | _, [] => []
  | i, b :: bs => (natToChars i ++ (". ").data ++ b) :: numberedBullets (i + 1) bs

/-- `PresentationSlideGenerator.generate_image_prompt`
(ppt_skeleton2slides.py lines 58-105). -/
def generate_image_prompt (slide : Slide) : Chars :=
  joinNl
    ([("Create a professional presentation slide with high-fidelity text rendering. The slide should be a clean, modern corporate presentation slide with a 16:9 aspect ratio.").data,
      [],
      ("The slide title is: '").data ++ slide.title ++ ("'").data,
      [],
      ("The slide contains the following bullet points:").data]
    ++ numberedBullets 1 slide.bullet_points
    ++ (match slide.visual_suggestion with
        | some v =>
          if v.isEmpty then []
          else [[], ("Visual elements to include: ").data ++ v]
        | none => [])
    ++ [[],
      ("Design specifications:").data,
      ("- Use a professional color scheme with high contrast for readability").data,
      ("- Ensure all text is clearly legible and properly positioned").data,
      ("- Include appropriate visual elements that support the content").data,
      ("- Use clean typography with good spacing between elements").data,
      ("- Maintain a professional, corporate presentation aesthetic").data,
      ("- Avoid cluttered layouts - keep it clean and focused").data,
      ("- Ensure the slide title is prominently displayed at the top").data,
      ("- Position bullet points clearly and logically").data,
      ("- Use appropriate visual hierarchy with different text sizes").data,
      ("- Include subtle background elements or graphics that enhance the message").data,
      [],
      ("Text rendering requirements:").data,
      ("- All text must be perfectly legible and accurately rendered").data,
      ("- Use professional fonts suitable for presentations").data,
      ("- Ensure proper contrast between text and background").data,
      ("- Maintain consistent text alignment and spacing").data,
      ("- Make sure the slide title stands out from the bullet points").data])

/-- Modelled from the spec: the module `skeleton2slides.py` — the renderer
actually imported by `slides_redo.py` and `main.py`, whose
`generate_slide_image` accepts a reference image — is not present in the
repository sources (only `ppt_skeleton2slides.py` is).  Per the spec (§4.4),
when a reference image is supplied the prompt additionally carries an
explicit instruction that the new imagery must match the reference image's
color palette and visual style. -/
def themeMatchInstruction : Chars :=
  ("The generated imagery must match the reference image's color palette and visual style.").data

/-- Modelled from the spec: prompt built by the missing `skeleton2slides.py`
renderer — the in-repository prompt of `generate_image_prompt`, plus the
palette-and-style instruction when a reference image is supplied. -/
def generate_image_prompt_themed (slide : Slide) (referenceImage : Option Nat) : Chars :=
  match referenceImage with
  | none => generate_image_prompt slide
  | some _ => generate_image_prompt slide ++ '\n' :: themeMatchInstruction

/-- One part of the generation response (`response.candidates[0].content.parts`). -/
structure GenPart where
  text : Option Chars
  inline_data : Option Nat
deriving DecidableEq, Repr

/-- A filesystem write performed by `generate_slide_image`. -/
inductive FsWrite where
  | imageSaved (num : Nat) (data : Nat)
  | placeholderTouched (num : Nat)
deriving DecidableEq, Repr

/-- The response-processing loop of `generate_slide_image` (lines 128-138):
log parts that carry text; save and break at the first part that carries no
text but does carry inline image data. -/
def savePart : List GenPart → Option Nat
  | [] => none
  | p :: ps =>
    match p.text with
    | some _ => savePart ps
    | none =>
      match p.inline_data with
      | some d => some d
      | none => savePart ps

/-- `PresentationSlideGenerator.generate_slide_image`
(ppt_skeleton2slides.py lines 107-154): on any exception, log and return
`None` with no write; otherwise save the first image part, or — when no
image data is found — `touch` an empty placeholder file, and in either of
those two cases return the image path (here: the slide number). -/
def generate_slide_image (num : Nat) (callResult : Except Unit (List GenPart)) :
    Option Nat × List FsWrite :=
  match callResult with
  | .error _ => (none, [])
  | .ok parts =>
    match savePart parts with
    | some d => (some num, [FsWrite.imageSaved num d])
    | none => (some num, [FsWrite.placeholderTouched num])

/-- The per-slide loop of `generate_all_slide_images`
(ppt_skeleton2slides.py lines 177-184): call the renderer for every slide in
order, collecting the returned paths of the successful calls; a `None`
return is logged and the loop continues. -/
def generate_all_slide_images (slides : List Slide)
    (results : Nat → Except Unit (List GenPart)) : List Nat × List FsWrite :=
  slides.foldl
    (fun acc slide =>
      let r := generate_slide_image slide.slide_number (results slide.slide_number)
      match r.1 with
      | some p => (acc.1 ++ [p], acc.2 ++ r.2)
      | none => (acc.1, acc.2 ++ r.2))
    ([], [])

/-! ## Artifact reconciliation (`SlideExpander.expand_slide`, slides_redo.py 328-413) -/

/-- The action taken for one slide of the expanded presentation. -/
inductive ImageAction where
  | generated (num : Nat) (themeRef : Option Nat)
  | genFailed (num : Nat)
  | copied (srcNum dstNum : Nat)
  | missing (num : Nat)
deriving DecidableEq, Repr

/-- Lines 328-349: look for `slides/slide_{slide_number:02d}.png` next to the
original presentation; `dirHas` models `v0_slides_dir.exists()` and
`priorHas n` models existence of `slide_{n:02d}.png` there. -/
def findThemeRef (slide_number : Nat) (dirHas : Bool) (priorHas : Nat → Bool) :
    Option Nat :=
  if dirHas then
    if priorHas slide_number then some slide_number else none
  else none

/-- The body of the reconciliation loop (lines 371-413) for one slide:
replacement-range slides are rendered fresh (passing the theme reference);
slides below the range copy their prior artifact under the same number;
slides above it copy the artifact at `number - 2`; a missing prior artifact
is logged and skipped. -/
def reconcileOne (slide_number numExpanded : Nat) (priorHas renderOk : Nat → Bool)
    (themeRef : Option Nat) (slide : Slide) : ImageAction :=
  let slide_num := slide.slide_number
  if slide_number ≤ slide_num ∧ slide_num < slide_number + numExpanded then
    if renderOk slide_num then ImageAction.generated slide_num themeRef
    else ImageAction.genFailed slide_num
  else
    let srcNum := if slide_num < slide_number then slide_num else slide_num - 2
    if priorHas srcNum then ImageAction.copied srcNum slide_num
    else ImageAction.missing slide_num

/-- The reconciliation loop over all slides of the expanded presentation. -/
def reconcileImages (all_slides : List Slide) (slide_number numExpanded : Nat)
    (priorHas renderOk : Nat → Bool) (themeRef : Option Nat) : List ImageAction :=
  all_slides.map (reconcileOne slide_number numExpanded priorHas renderOk themeRef)

/-- The artifact phase of `expand_slide`: find the theme reference, then
reconcile every slide of the expanded presentation. -/
def expand_slide_artifacts (all_slides : List Slide) (slide_number numExpanded : Nat)
    (dirHas : Bool) (priorHas renderOk : Nat → Bool) : List ImageAction :=
  reconcileImages all_slides slide_number numExpanded priorHas renderOk
    (findThemeRef slide_number dirHas priorHas)

/-- Concrete input for the C1 witness: the spec's own scenario
(3-slide outline, expand slide 2 with a batch of 3). -/
def c1orig : List Slide :=
  [{ slide_number := 1, title := ("Intro").data, bullet_points := [("a").data],
     visual_suggestion := none },
   { slide_number := 2, title := ("Methods").data, bullet_points := [],
     visual_suggestion := none },
   { slide_number := 3, title := ("Results").data, bullet_points := [],
     visual_suggestion := none }]

def c1batch : List Slide :=
  [{ slide_number := 1, title := ("M one").data, bullet_points := [],
     visual_suggestion := none },
   { slide_number := 2, title := ("M two").data, bullet_points := [],
     visual_suggestion := none },
   { slide_number := 3, title := ("M three").data, bullet_points := [],
     visual_suggestion := none }]

/-- Concrete text for the C2 witness: labels in the markers are `7` and `4`,
yet the parser numbers the slides `1, 2`. -/
def c2md : Chars :=
  ("## Slide 7: First\n- a\n\n## Slide 4: Second\n- b\n").data

def c3ex : Nat → Bool := fun n => decide (n ≤ 3)

def c4all : List Slide :=
  [{ slide_number := 1, title := ("A").data, bullet_points := [],
     visual_suggestion := none },
   { slide_number := 2, title := ("B").data, bullet_points := [],
     visual_suggestion := none },
   { slide_number := 3, title := ("C").data, bullet_points := [],
     visual_suggestion := none },
   { slide_number := 4, title := ("D").data, bullet_points := [],
     visual_suggestion := none },
   { slide_number := 5, title := ("E").data, bullet_points := [],
     visual_suggestion := none }]

def c6slides : List Slide :=
  [{ slide_number := 1, title := ("A").data, bullet_points := [],
     visual_suggestion := none },
   { slide_number := 2, title := ("B").data, bullet_points := [],
     visual_suggestion := none }]

def c6results : Nat → Except Unit (List GenPart) := fun n =>
  if n = 1 then Except.error ()
  else Except.ok [{ text := none, inline_data := some 7 }]

def c9slide : Slide :=
  { slide_number := 2, title := ("Methods").data, bullet_points := [("m").data],
    visual_suggestion := some (("a flowchart").data) }

def c5txt : Chars := ("## Slide 1: X\n- a\n").data

/-! ## C8: parse round-trip -/

/-- A single-line text field that survives the serialize-parse round trip:
already stripped, no newline, and no occurrence of the marker-terminating
substring `## `. -/
def lineOkB (cs : Chars) : Bool :=
  (cs.dropWhile pyWs == cs) && (cs.reverse.dropWhile pyWs == cs.reverse) &&
  !(cs.contains '\n') && !(hasSub (("## ").data) cs)

/-- Well-formedness of one slide for the round-trip (the amended P1):
non-empty stripped single-line title not starting with `-`; stripped
single-line bullets not starting with the hint-marker text; hint either
absent or a non-empty stripped single line not containing the hint marker. -/
def wellFormedSlide (s : Slide) : Bool :=
  !(s.title.isEmpty) && lineOkB s.title && !((['-']).isPrefixOf s.title) &&
  s.bullet_points.all
    (fun b => lineOkB b && !((("**Visual suggestion:**").data).isPrefixOf b)) &&
  s.visual_suggestion.all
    (fun v => !(v.isEmpty) && lineOkB v && !(hasSub hintMarker v))

/-- Numbers recomputed from 1-based position, all other fields kept. -/
def renumber : Nat → List Slide → List Slide
  | _, [] => []
  | i, s :: rest => { s with slide_number := i } :: renumber (i + 1) rest

/-- The non-header lines emitted for one slide (bullets, then the hint line
when present and non-empty). -/
def bodyLinesOf (s : Slide) : List Chars :=
  s.bullet_points.map (fun b => ("- ").data ++ b) ++
    (match s.visual_suggestion with
     | some v => if v.isEmpty then [] else [hintMarker ++ ' ' :: v]
     | none => [])

/-- The literal part of one serialized slide-header line before the title. -/
def markerText (s : Slide) : Chars :=
  ("## Slide ").data ++ natToChars s.slide_number ++ (": ").data

/-- The serialized body that the scanner captures for one slide
(`extra` holds the empty lines picked up before the next marker). -/
def contentFor (s : Slide) (extra : List Chars) : Chars :=
  joinNl ((s.title :: bodyLinesOf s) ++ extra)

/-- The serialized text of a list of slides (everything after the header
part of `slides_to_markdown`). -/
def blockText (ss : List Slide) : Chars :=
  joinNl ((ss.map slideToLines).flatten)

/-- Counterexample input for C8: a perfectly ordinary slide whose bullet text
happens to start with the hint-marker words. -/
def c8cx : List Slide :=
  [{ slide_number := 1, title := ("T").data,
     bullet_points := [("**Visual suggestion:** art").data],
     visual_suggestion := none }]

/-- Witness input for C8: well-formed slides with non-positional numbers. -/
def c8w : List Slide :=
  [{ slide_number := 5, title := ("Intro").data,
     bullet_points := [("Point one").data, ("Point two").data],
     visual_suggestion := some (("A chart").data) },
   { slide_number := 9, title := ("End").data, bullet_points := [],
     visual_suggestion := none }]

/-! ## Basic lemmas about the character utilities -/

theorem isPrefixOf_append_self (p r : Chars) : p.isPrefixOf (p ++ r) = true := by
  induction p with
  | nil => simp [List.isPrefixOf]
  | cons a p ih => simp [List.isPrefixOf, ih]

theorem exists_append_of_isPrefixOf {p cs : Chars} (h : p.isPrefixOf cs = true) :
    ∃ r, cs = p ++ r := by
  induction p generalizing cs with
  | nil => exact ⟨cs, rfl⟩
  | cons a p ih =>
    cases cs with
    | nil => simp [List.isPrefixOf] at h
    | cons b cs =>
      simp only [List.isPrefixOf, Bool.and_eq_true, beq_iff_eq] at h
      obtain ⟨r, hr⟩ := ih h.2
      exact ⟨r, by simp [h.1, hr]⟩

theorem isPrefixOf_cons_false {a : Char} {p cs : Chars} (hne : p.headD a ≠ a)
    (hp : p ≠ []) : p.isPrefixOf (a :: cs) = false := by
  cases p with
  | nil => exact absurd rfl hp
  | cons b p =>
    simp only [List.headD] at hne
    simp [List.isPrefixOf, hne]

theorem length_le_of_isPrefixOf {p cs : Chars} (h : p.isPrefixOf cs = true) :
    p.length ≤ cs.length := by
  obtain ⟨r, hr⟩ := exists_append_of_isPrefixOf h
  subst hr; simp

/-! ## Lemmas about `lazySplit` -/

theorem lazySplit_spec {cs pre post : Chars} (h : lazySplit cs = some (pre, post)) :
    cs = pre ++ post ∧ pre ≠ [] := by
  induction cs generalizing pre post with
  | nil => simp [lazySplit] at h
  | cons c cs ih =>
    by_cases hl : lookaheadOk cs
    · simp [lazySplit, hl] at h
      exact ⟨by simp [← h.1, h.2], by simp [← h.1]⟩
    · simp only [lazySplit, hl, Bool.false_eq_true, if_false] at h
      cases hrec : lazySplit cs with
      | none => rw [hrec] at h; exact absurd h (by simp)
      | some x =>
        rw [hrec] at h
        obtain ⟨p', q'⟩ := x
        simp only [Option.some.injEq, Prod.mk.injEq] at h
        obtain ⟨h1, h2⟩ := h
        obtain ⟨hcs, _⟩ := ih hrec
        subst h2
        refine ⟨?_, by simp [← h1]⟩
        rw [← h1]; simp [hcs]

theorem lazySplit_post_lt {cs pre post : Chars} (h : lazySplit cs = some (pre, post)) :
    post.length < cs.length := by
  obtain ⟨hcs, hne⟩ := lazySplit_spec h
  subst hcs
  have : 0 < pre.length := List.length_pos.mpr hne
  simp; omega

theorem lazySplit_cons_eq (c : Char) (cs : Chars) :
    lazySplit (c :: cs) =
      if lookaheadOk cs then some ([c], cs)
      else
        match lazySplit cs with
        | some (pre, post) => some (c :: pre, post)
        | none => none := rfl

theorem lazySplit_exact (pre post : Chars) (hpre : pre ≠ [])
    (hstop : lookaheadOk post = true)
    (hnostop : ∀ t, t ≠ [] → t ≠ pre → (∃ u, u ≠ [] ∧ u ++ t = pre) →
      lookaheadOk (t ++ post) = false) :
    lazySplit (pre ++ post) = some (pre, post) := by
  induction pre with
  | nil => exact absurd rfl hpre
  | cons c pre ih =>
    cases pre with
    | nil =>
      show lazySplit (c :: post) = some ([c], post)
      rw [lazySplit_cons_eq, if_pos hstop]
    | cons d pre' =>
      have hfail : lookaheadOk ((d :: pre') ++ post) = false := by
        refine hnostop (d :: pre') (by simp) ?_ ⟨[c], by simp, rfl⟩
        intro hcontra
        have := congrArg List.length hcontra
        simp at this
      have hrec : lazySplit ((d :: pre') ++ post) = some (d :: pre', post) := by
        refine ih (by simp) ?_
        intro t ht htne ⟨u, hu, hut⟩
        exact hnostop t ht
          (by intro hc; subst hc; have := congrArg List.length hut; simp at this; omega)
          ⟨c :: u, by simp, by simp [hut]⟩
      show lazySplit (c :: ((d :: pre') ++ post)) = some (c :: d :: pre', post)
      rw [lazySplit_cons_eq, if_neg (by rw [hfail]; simp), hrec]

/-! ## Lemmas about `tryMatch` and the scan loop -/

theorem isPrefixOf_trans {a b c : Chars} (h1 : a.isPrefixOf b = true)
    (h2 : b.isPrefixOf c = true) : a.isPrefixOf c = true := by
  obtain ⟨r1, rfl⟩ := exists_append_of_isPrefixOf h1
  obtain ⟨r2, rfl⟩ := exists_append_of_isPrefixOf h2
  rw [List.append_assoc]
  exact isPrefixOf_append_self _ _

theorem tryMatch_rest_lt {cs : Chars} {x : Chars × Chars × Chars}
    (h : tryMatch cs = some x) : x.2.2.length < cs.length := by
  unfold tryMatch at h
  by_cases h1 : (("## Slide ").data).isPrefixOf cs = true
  · rw [if_pos h1] at h
    by_cases h2 : ((!((cs.drop 9).takeWhile Char.isDigit).isEmpty) &&
        ((": ").data).isPrefixOf ((cs.drop 9).dropWhile Char.isDigit)) = true
    · rw [if_pos h2] at h
      cases hls : lazySplit (((cs.drop 9).dropWhile Char.isDigit).drop 2) with
      | none => rw [hls] at h; exact absurd h (by simp)
      | some y =>
        rw [hls] at h
        obtain ⟨body, rest⟩ := y
        have hlt := lazySplit_post_lt hls
        have hlen9 : 9 ≤ cs.length := by
          have := length_le_of_isPrefixOf h1
          simpa using this
        have hd9 : (cs.drop 9).length = cs.length - 9 := by simp
        have hdw : ((cs.drop 9).dropWhile Char.isDigit).length ≤ (cs.drop 9).length :=
          (List.dropWhile_sublist Char.isDigit).length_le
        have hd2 : (((cs.drop 9).dropWhile Char.isDigit).drop 2).length ≤
            ((cs.drop 9).dropWhile Char.isDigit).length := by simp
        cases h
        show rest.length < cs.length
        omega
    · rw [if_neg h2] at h; exact absurd h (by simp)
  · rw [if_neg h1] at h; exact absurd h (by simp)

theorem tryMatch_none_of_no_hh {cs : Chars}
    (h : (("## ").data).isPrefixOf cs = false) : tryMatch cs = none := by
  unfold tryMatch
  rw [if_neg]
  intro hcon
  have : (("## ").data).isPrefixOf cs = true :=
    isPrefixOf_trans (by decide) hcon
  rw [this] at h
  exact absurd h (by simp)

theorem fmGo_fuel {fuel1 fuel2 : Nat} {cs : Chars} (h1 : cs.length ≤ fuel1)
    (h2 : cs.length ≤ fuel2) : fmGo fuel1 cs = fmGo fuel2 cs := by
  induction fuel1 generalizing fuel2 cs with
  | zero =>
    have : cs = [] := List.length_eq_zero.mp (by omega)
    subst this
    cases fuel2 <;> rfl
  | succ fuel1 ih =>
    cases cs with
    | nil => cases fuel2 <;> rfl
    | cons c cs' =>
      cases fuel2 with
      | zero => simp at h2
      | succ fuel2 =>
        cases hm : tryMatch (c :: cs') with
        | some x =>
          have hlt := tryMatch_rest_lt hm
          simp only [List.length_cons] at h1 h2 hlt
          simp only [fmGo, hm]
          congr 1
          exact ih (by omega) (by omega)
        | none =>
          simp only [List.length_cons] at h1 h2
          simp only [fmGo, hm]
          exact ih (by omega) (by omega)

theorem findMarkers_cons_some {c : Char} {cs : Chars} {x : Chars × Chars × Chars}
    (h : tryMatch (c :: cs) = some x) :
    findMarkers (c :: cs) = (x.1, x.2.1) :: findMarkers x.2.2 := by
  unfold findMarkers
  have hlt := tryMatch_rest_lt h
  simp only [List.length_cons, fmGo, h]
  congr 1
  exact fmGo_fuel (by simp at hlt; omega) (le_refl _)

theorem findMarkers_cons_none {c : Char} {cs : Chars}
    (h : tryMatch (c :: cs) = none) : findMarkers (c :: cs) = findMarkers cs := by
  unfold findMarkers
  simp only [List.length_cons, fmGo, h]

theorem findMarkers_skip (junk rest : Chars)
    (hsub : hasSub ('#' :: '#' :: []) junk = false)
    (hlast : junk.getLast? ≠ some '#') :
    findMarkers (junk ++ rest) = findMarkers rest := by
  induction junk with
  | nil => rfl
  | cons c junk' ih =>
    have hstep : tryMatch (c :: (junk' ++ rest)) = none := by
      apply tryMatch_none_of_no_hh
      cases hpf : (("## ").data).isPrefixOf (c :: (junk' ++ rest)) with
      | false => rfl
      | true =>
        exfalso
        obtain ⟨r, hr⟩ := exists_append_of_isPrefixOf hpf
        cases junk' with
        | nil =>
          have hc : c = '#' := by
            have := congrArg (fun l => l.headD ' ') hr
            simpa using this
          exact hlast (by simp [hc])
        | cons d junk'' =>
          have hc : c = '#' ∧ d = '#' := by
            have h0 := congrArg (fun l => l.headD ' ') hr
            have h1 := congrArg (fun l => l.tail.headD ' ') hr
            simp at h0 h1
            exact ⟨h0, h1⟩
          have : ('#' :: '#' :: []).isPrefixOf (c :: d :: (junk'' ++ rest)) = true := by
            simp [List.isPrefixOf, hc.1, hc.2]
          rw [show hasSub ('#' :: '#' :: []) (c :: d :: junk'') =
              ((('#' :: '#' :: []).isPrefixOf (c :: d :: junk'')) ||
                hasSub ('#' :: '#' :: []) (d :: junk'')) from rfl] at hsub
          cases hpf2 : ('#' :: '#' :: []).isPrefixOf (c :: d :: junk'') with
          | true => rw [hpf2] at hsub; simp at hsub
          | false =>
            simp [List.isPrefixOf, hc.1, hc.2] at hpf2
    rw [show (c :: junk') ++ rest = c :: (junk' ++ rest) from rfl,
      findMarkers_cons_none hstep]
    apply ih
    · rw [show hasSub ('#' :: '#' :: []) (c :: junk') =
        ((('#' :: '#' :: []).isPrefixOf (c :: junk')) ||
          hasSub ('#' :: '#' :: []) junk') from rfl] at hsub
      cases h : hasSub ('#' :: '#' :: []) junk' with
      | false => rfl
      | true => rw [h] at hsub; simp at hsub
    · cases junk' with
      | nil => simp
      | cons d junk'' =>
        rw [List.getLast?_cons_cons] at hlast
        exact hlast

/-! ## Lemmas about the parser's numbering and the splice step -/

theorem numberSlides_length (ms : List (Chars × Chars)) :
    ∀ i, (numberSlides i ms).length = ms.length := by
  induction ms with
  | nil => intro i; rfl
  | cons m ms ih => intro i; simp [numberSlides, ih]

theorem numberSlides_getElem? (ms : List (Chars × Chars)) :
    ∀ i j, (numberSlides i ms)[j]? = (ms[j]?).map (fun m => mkSlideRec (i + j) m.2) := by
  induction ms with
  | nil => intro i j; simp [numberSlides]
  | cons m ms ih =>
    intro i j
    cases j with
    | zero => simp [numberSlides]
    | succ j =>
      simp only [numberSlides, List.getElem?_cons_succ]
      rw [ih (i + 1) j, show i + 1 + j = i + (j + 1) from by omega]

theorem parse_length (md : Chars) :
    (parse_presentation_skeleton md).length = (findMarkers md).length :=
  numberSlides_length _ 1

theorem parse_positional (md : Chars) :
    ∀ i s, (parse_presentation_skeleton md)[i]? = some s → s.slide_number = i + 1 := by
  intro i s h
  rw [parse_presentation_skeleton, numberSlides_getElem?] at h
  cases hm : (findMarkers md)[i]? with
  | none => rw [hm] at h; exact absurd h (by simp)
  | some m =>
    rw [hm] at h
    simp only [Option.map_some'] at h
    have hs : s = mkSlideRec (1 + i) m.2 := by injection h with h'; exact h'.symm
    rw [hs]
    show 1 + i = i + 1
    omega

theorem rbGo_length (idx : Nat) (es : List Slide) :
    ∀ i, (rbGo idx i es).length = es.length := by
  induction es with
  | nil => intro i; rfl
  | cons e es ih => intro i; simp [rbGo, ih]

theorem rbGo_getElem? (idx : Nat) (es : List Slide) :
    ∀ (i j : Nat) (b : Slide), es[j]? = some b →
      (rbGo idx i es)[j]? = some { b with slide_number := idx + i + j + 1 } := by
  induction es with
  | nil => intro i j b h; simp at h
  | cons e es ih =>
    intro i j b h
    cases j with
    | zero =>
      simp only [List.getElem?_cons_zero, Option.some.injEq] at h
      subst h
      simp [rbGo]
    | succ j =>
      simp only [List.getElem?_cons_succ] at h
      simp only [rbGo, List.getElem?_cons_succ]
      rw [ih (i + 1) j b h, show idx + (i + 1) + j + 1 = idx + i + (j + 1) + 1 from by omega]

theorem findSlideIdx_shifted {l : List Slide} :
    ∀ {k o : Nat},
      (∀ j s, l[j]? = some s → s.slide_number = j + 1 + o) →
      o + 1 ≤ k → k ≤ l.length + o → findSlideIdx l k = some (k - 1 - o) := by
  induction l with
  | nil => intro k o _ h1 h2; simp at h2; omega
  | cons a l ih =>
    intro k o hpos h1 h2
    have ha : a.slide_number = 1 + o := by
      have := hpos 0 a (by simp)
      omega
    by_cases hk : k = o + 1
    · subst hk
      rw [findSlideIdx, if_pos (by omega)]
      congr 1
      omega
    · rw [findSlideIdx, if_neg (by omega)]
      have hrec : findSlideIdx l k = some (k - 1 - (o + 1)) := by
        refine ih (fun j s hj => ?_) (by omega) ?_
        · have := hpos (j + 1) s (by simpa using hj)
          omega
        · simp at h2; omega
      rw [hrec]
      simp only [Option.map_some']
      congr 1
      omega

/-- Shared decomposition of the splice-and-renumber result of
`create_expanded_slides`. -/
theorem splice_spec {orig : List Slide} {k : Nat} (batch : List Slide)
    (hpos : ∀ j s, orig[j]? = some s → s.slide_number = j + 1)
    (hk1 : 1 ≤ k) (hk2 : k ≤ orig.length) :
    ∃ res, create_expanded_slides orig k batch = some res ∧
      res.length = k - 1 + batch.length + (orig.length - k) ∧
      (∀ i, i < k - 1 → res[i]? = orig[i]?) ∧
      (∀ (j : Nat) (b : Slide), batch[j]? = some b →
        res[k - 1 + j]? = some { b with slide_number := k + j }) ∧
      (∀ i, k ≤ i → i < orig.length →
        res[k - 1 + batch.length + (i - k)]? =
          (orig[i]?).map (fun s => { s with slide_number := s.slide_number + 2 })) := by
  have hidx : findSlideIdx orig k = some (k - 1) := by
    have := findSlideIdx_shifted (l := orig) (k := k) (o := 0)
      (fun j s hj => by have := hpos j s hj; omega) (by omega) (by omega)
    simpa using this
  have htk : (orig.take (k - 1)).length = k - 1 := by
    rw [List.length_take]; omega
  have hrb : (renumberBatch (k - 1) batch).length = batch.length := rbGo_length _ _ 0
  have hmap : ((orig.drop (k - 1 + 1)).map
      (fun s => { s with slide_number := s.slide_number + 2 })).length =
      orig.length - k := by
    rw [List.length_map, List.length_drop]; omega
  refine ⟨_, by rw [create_expanded_slides, hidx], ?_, ?_, ?_, ?_⟩
  · simp only [List.length_append, htk, hrb, hmap]
  · intro i hi
    rw [List.append_assoc, List.getElem?_append_left (by rw [htk]; omega)]
    exact List.getElem?_take_of_lt hi
  · intro j b hb
    have hjlen : j < batch.length := by
      by_contra hcon
      rw [List.getElem?_eq_none (by omega)] at hb
      exact absurd hb (by simp)
    rw [List.append_assoc, List.getElem?_append_right (by rw [htk]; omega), htk,
      show k - 1 + j - (k - 1) = j from by omega,
      List.getElem?_append_left (by rw [hrb]; omega)]
    rw [renumberBatch, rbGo_getElem? (k - 1) batch 0 j b hb,
      show k - 1 + 0 + j + 1 = k + j from by omega]
  · intro i hik hilen
    rw [List.append_assoc, List.getElem?_append_right (by rw [htk]; omega), htk,
      show k - 1 + batch.length + (i - k) - (k - 1) = batch.length + (i - k) from by omega,
      List.getElem?_append_right (by rw [hrb]; omega), hrb,
      show batch.length + (i - k) - batch.length = i - k from by omega,
      List.getElem?_map, List.getElem?_drop,
      show k - 1 + 1 + (i - k) = i from by omega]

theorem positional_of_map_range {l : List Slide}
    (h : l.map (fun s => s.slide_number) = List.range' 1 l.length) :
    ∀ j s, l[j]? = some s → s.slide_number = j + 1 := by
  intro j s hj
  have hlt : j < l.length := by
    by_contra hcon
    rw [List.getElem?_eq_none (by omega)] at hj
    exact absurd hj (by simp)
  have hcong := congrArg (fun t => t[j]?) h
  simp only [List.getElem?_map, hj, Option.map_some'] at hcong
  rw [List.getElem?_eq_getElem (by simpa using hlt), List.getElem_range'] at hcong
  simp at hcong
  omega

/-- C1: expanding slide `k` of an outline whose `N` slides are numbered
`1..N` by position, with a replacement batch of size 3, yields an outline of
exactly `N + 2` slides: the slides at positions below `k` (original numbers
`< k`) are kept unchanged, the three batch entries take numbers `k`, `k+1`,
`k+2` in batch order, and every slide with original number `> k` keeps its
content and gets number `original + 2`. -/
theorem C1_splice_arithmetic (orig : List Slide) (k : Nat) (batch : List Slide)
    (hpos : orig.map (fun s => s.slide_number) = List.range' 1 orig.length)
    (hk1 : 1 ≤ k) (hk2 : k ≤ orig.length) (hb : batch.length = 3) :
    ∃ res, create_expanded_slides orig k batch = some res ∧
      res.length = orig.length + 2 ∧
      (∀ i, i < k - 1 → res[i]? = orig[i]?) ∧
      (∀ (j : Nat) (b : Slide), batch[j]? = some b →
        res[k - 1 + j]? = some { b with slide_number := k + j }) ∧
      (∀ i, k ≤ i → i < orig.length →
        res[i + 2]? =
          (orig[i]?).map (fun s => { s with slide_number := s.slide_number + 2 })) := by
  obtain ⟨res, hres, hlen, hlow, hmid, hhigh⟩ :=
    splice_spec batch (positional_of_map_range hpos) hk1 hk2
  refine ⟨res, hres, by omega, hlow, hmid, ?_⟩
  intro i hik hilen
  have := hhigh i hik hilen
  rw [show k - 1 + batch.length + (i - k) = i + 2 from by omega] at this
  exact this

theorem C1_splice_arithmetic_witness :
    ∃ res, create_expanded_slides c1orig 2 c1batch = some res ∧
      res.length = c1orig.length + 2 ∧
      (∀ i, i < 2 - 1 → res[i]? = c1orig[i]?) ∧
      (∀ (j : Nat) (b : Slide), c1batch[j]? = some b →
        res[2 - 1 + j]? = some { b with slide_number := 2 + j }) ∧
      (∀ i, 2 ≤ i → i < c1orig.length →
        res[i + 2]? =
          (c1orig[i]?).map (fun s => { s with slide_number := s.slide_number + 2 })) :=
  C1_splice_arithmetic c1orig 2 c1batch (by decide) (by decide) (by decide) (by decide)

/-- C2: (a) for every input text, the slide numbers produced by the parser
are exactly `1..N` assigned by 1-based document position (numeric labels in
the marker text play no role in the assigned numbers); (b) for every outline
with positional numbering `1..N` and a replacement batch of exactly 3
entries, the splice-and-renumber step yields numbers exactly
`{1, ..., N + 2}` with no duplicates and no gaps. -/
theorem C2_numbering_invariant :
    (∀ (md : Chars),
      (parse_presentation_skeleton md).map (fun s => s.slide_number) =
        List.range' 1 (parse_presentation_skeleton md).length) ∧
    (∀ (orig : List Slide) (k : Nat) (batch : List Slide) (res : List Slide),
      orig.map (fun s => s.slide_number) = List.range' 1 orig.length →
      1 ≤ k → k ≤ orig.length → batch.length = 3 →
      create_expanded_slides orig k batch = some res →
      res.map (fun s => s.slide_number) = List.range' 1 (orig.length + 2)) := by
  constructor
  · intro md
    apply List.ext_getElem?_iff.mpr
    intro i
    by_cases hi : i < (parse_presentation_skeleton md).length
    · cases hp : (parse_presentation_skeleton md)[i]? with
      | none =>
        rw [List.getElem?_eq_none_iff] at hp
        omega
      | some s =>
        rw [List.getElem?_map, hp, Option.map_some']
        rw [List.getElem?_eq_getElem (by simpa using hi), List.getElem_range']
        rw [parse_positional md i s hp]
        simp [Nat.add_comm]
    · rw [List.getElem?_eq_none (by simpa using Nat.le_of_not_lt hi),
        List.getElem?_eq_none (by simp; omega)]
  · intro orig k batch res hpos hk1 hk2 hb hres
    obtain ⟨res', hres', hlen, hlow, hmid, hhigh⟩ :=
      splice_spec batch (positional_of_map_range hpos) hk1 hk2
    rw [hres'] at hres
    injection hres with hres
    subst hres
    have hlen2 : res'.length = orig.length + 2 := by omega
    apply List.ext_getElem?_iff.mpr
    intro i
    by_cases hi : i < orig.length + 2
    · have hget : ∃ s, res'[i]? = some s ∧ s.slide_number = i + 1 := by
        by_cases hcase1 : i < k - 1
        · have := hlow i hcase1
          cases hp : orig[i]? with
          | none =>
            rw [List.getElem?_eq_none_iff] at hp
            omega
          | some s =>
            rw [hp] at this
            exact ⟨s, this, positional_of_map_range hpos i s hp⟩
        · by_cases hcase2 : i < k - 1 + 3
          · set j := i - (k - 1) with hj
            have hjb : j < batch.length := by omega
            cases hbj : batch[j]? with
            | none =>
              rw [List.getElem?_eq_none_iff] at hbj
              omega
            | some b =>
              have := hmid j b hbj
              rw [show k - 1 + j = i from by omega] at this
              exact ⟨_, this, by show k + j = i + 1; omega⟩
          · set i' := i - 2 with hi'
            have hk' : k ≤ i' := by omega
            have hlen' : i' < orig.length := by omega
            have := hhigh i' hk' hlen'
            rw [hb, show k - 1 + 3 + (i' - k) = i from by omega] at this
            cases hp : orig[i']? with
            | none =>
              rw [List.getElem?_eq_none_iff] at hp
              omega
            | some s =>
              rw [hp, Option.map_some'] at this
              refine ⟨_, this, ?_⟩
              show s.slide_number + 2 = i + 1
              have := positional_of_map_range hpos i' s hp
              omega
      obtain ⟨s, hs, hnum⟩ := hget
      rw [List.getElem?_map, hs, Option.map_some', hnum]
      rw [List.getElem?_eq_getElem (by simp; omega), List.getElem_range']
      simp [Nat.add_comm]
    · rw [List.getElem?_eq_none (by simp; omega),
        List.getElem?_eq_none (by simp; omega)]

theorem C2_numbering_invariant_witness :
    ((parse_presentation_skeleton c2md).map (fun s => s.slide_number) =
      List.range' 1 (parse_presentation_skeleton c2md).length) ∧
    ∀ res, create_expanded_slides c1orig 2 c1batch = some res →
      res.map (fun s => s.slide_number) = List.range' 1 (c1orig.length + 2) :=
  ⟨C2_numbering_invariant.1 c2md,
   fun res hres => C2_numbering_invariant.2 c1orig 2 c1batch res (by decide)
     (by decide) (by decide) (by decide) hres⟩

/-- C3 counterexample: against an initially empty base directory the
allocation loop of `expand_slide_workflow` returns version 1, not version 0
— the scan starts at `version_num = 1`, contradicting the claim that it
starts at 0 and would yield `v0` first. -/
theorem C3_allocation_counterexample :
    findNextVersionNum (fun _ => false) ⟨0, rfl⟩ = 1 ∧ (1 : Nat) ≠ 0 := by
  constructor
  · show Nat.find _ + 1 = 1
    have h0 : Nat.find (⟨0, rfl⟩ : ∃ n, (fun _ => false) (n + 1) = false) = 0 :=
      (Nat.find_eq_zero _).mpr rfl
    omega
  · decide

/-- C3 amended: version allocation tests existence of `base_dir/v{n}`
starting at `n = 1` and returns the first `n ≥ 1` for which no such
directory exists; allocating a version directory `N` times against an
initially empty base directory yields `v1, v2, ..., vN` in that order
(single-writer assumption). -/
theorem C3_version_allocation (ex : Nat → Bool) (h : ∃ n, ex (n + 1) = false) :
    (1 ≤ findNextVersionNum ex h ∧
      ex (findNextVersionNum ex h) = false ∧
      (∀ m, 1 ≤ m → m < findNextVersionNum ex h → ex m = true)) ∧
    (∀ N, allocRun N = List.range' 1 N) := by
  refine ⟨⟨by rw [findNextVersionNum]; omega, Nat.find_spec h, ?_⟩, ?_⟩
  · intro m h1 h2
    rw [findNextVersionNum] at h2
    obtain ⟨m', rfl⟩ : ∃ m', m = m' + 1 := ⟨m - 1, by omega⟩
    have := Nat.find_min h (m := m') (by omega)
    cases hc : ex (m' + 1) with
    | true => rfl
    | false => exact absurd hc this
  · intro N
    induction N with
    | zero => rfl
    | succ N ih =>
      show allocRun N ++ [findNextVersionNum (mkdirList (allocRun N)) _] = _
      rw [ih, List.range'_concat]
      congr 1
      have hfind : Nat.find (allocFree (List.range' 1 N)) = N := by
        rw [Nat.find_eq_iff]
        constructor
        · have hnm : ¬ ((N + 1) ∈ List.range' 1 N) := by
            rw [List.mem_range'_1]; omega
          cases hc : mkdirList (List.range' 1 N) (N + 1) with
          | false => rfl
          | true =>
            have helem : (List.range' 1 N).elem (N + 1) = true := hc
            exact absurd (List.elem_iff.mp helem) hnm
        · intro n hn hcon
          have hmem : (n + 1) ∈ List.range' 1 N := by
            rw [List.mem_range'_1]; omega
          have helem : mkdirList (List.range' 1 N) (n + 1) = true :=
            List.elem_iff.mpr hmem
          rw [helem] at hcon
          exact absurd hcon (by simp)
      have hfn : findNextVersionNum (mkdirList (List.range' 1 N))
          (allocFree (List.range' 1 N)) = N + 1 := by
        rw [findNextVersionNum, hfind]
      rw [hfn]
      congr 1
      omega

theorem C3_version_allocation_witness :
    (1 ≤ findNextVersionNum c3ex ⟨3, by decide⟩ ∧
      c3ex (findNextVersionNum c3ex ⟨3, by decide⟩) = false ∧
      (∀ m, 1 ≤ m → m < findNextVersionNum c3ex ⟨3, by decide⟩ → c3ex m = true)) ∧
    (∀ N, allocRun N = List.range' 1 N) :=
  C3_version_allocation c3ex ⟨3, by decide⟩

/-- C4: in the reconciliation loop over the new outline, a slide numbered
below the replacement range reuses the prior artifact under the same number
(or is logged-and-skipped when that artifact is missing); a slide inside the
range is rendered fresh; a slide above the range copies the prior artifact at
`number - 2` to its new number (or is logged-and-skipped when missing); and
every slide of the batch is processed — a missing prior artifact never aborts
the loop. -/
theorem C4_artifact_reconciliation (all : List Slide) (k nE : Nat)
    (pe ro : Nat → Bool) (tr : Option Nat) :
    (reconcileImages all k nE pe ro tr).length = all.length ∧
    ∀ (i : Nat) (s : Slide), all[i]? = some s →
      ((s.slide_number < k →
        (reconcileImages all k nE pe ro tr)[i]? =
          some (if pe s.slide_number then
              ImageAction.copied s.slide_number s.slide_number
            else ImageAction.missing s.slide_number)) ∧
      (k ≤ s.slide_number → s.slide_number < k + nE →
        (reconcileImages all k nE pe ro tr)[i]? =
          some (if ro s.slide_number then ImageAction.generated s.slide_number tr
            else ImageAction.genFailed s.slide_number)) ∧
      (k + nE ≤ s.slide_number →
        (reconcileImages all k nE pe ro tr)[i]? =
          some (if pe (s.slide_number - 2) then
              ImageAction.copied (s.slide_number - 2) s.slide_number
            else ImageAction.missing s.slide_number))) := by
  refine ⟨List.length_map _ _, ?_⟩
  intro i s h
  have hbase : (reconcileImages all k nE pe ro tr)[i]? =
      some (reconcileOne k nE pe ro tr s) := by
    rw [reconcileImages, List.getElem?_map, h, Option.map_some']
  refine ⟨?_, ?_, ?_⟩
  · intro hlow
    rw [hbase, reconcileOne]
    have h1 : ¬ (k ≤ s.slide_number ∧ s.slide_number < k + nE) := by omega
    rw [if_neg h1, if_pos hlow]
  · intro h1 h2
    rw [hbase, reconcileOne]
    rw [if_pos ⟨h1, h2⟩]
  · intro hhigh
    rw [hbase, reconcileOne]
    have h1 : ¬ (k ≤ s.slide_number ∧ s.slide_number < k + nE) := by omega
    have h2 : ¬ (s.slide_number < k) := by omega
    rw [if_neg h1, if_neg h2]

theorem C4_artifact_reconciliation_witness :
    (reconcileImages c4all 2 3 (fun n => decide (n ≠ 3)) (fun _ => true)
      (some 2)).length = c4all.length ∧
    (reconcileImages c4all 2 3 (fun n => decide (n ≠ 3)) (fun _ => true)
      (some 2))[0]? =
      some (if (fun n => decide (n ≠ 3)) 1 then ImageAction.copied 1 1
        else ImageAction.missing 1) ∧
    (reconcileImages c4all 2 3 (fun n => decide (n ≠ 3)) (fun _ => true)
      (some 2))[2]? =
      some (if (fun _ => true) 3 then ImageAction.generated 3 (some 2)
        else ImageAction.genFailed 3) ∧
    (reconcileImages c4all 2 3 (fun n => decide (n ≠ 3)) (fun _ => true)
      (some 2))[4]? =
      some (if (fun n => decide (n ≠ 3)) 3 then ImageAction.copied 3 5
        else ImageAction.missing 5) := by
  obtain ⟨hlen, hpt⟩ :=
    C4_artifact_reconciliation c4all 2 3 (fun n => decide (n ≠ 3)) (fun _ => true)
      (some 2)
  refine ⟨hlen, ?_, ?_, ?_⟩
  · exact (hpt 0 (c4all.get ⟨0, by decide⟩) (by decide)).1 (by decide)
  · exact (hpt 2 (c4all.get ⟨2, by decide⟩) (by decide)).2.1 (by decide) (by decide)
  · exact (hpt 4 (c4all.get ⟨4, by decide⟩) (by decide)).2.2 (by decide)

/-! ## Claims about the slide renderer (C6, C9) -/

/-- C6 counterexample: when the remote call succeeds but the response carries
no image data (here: a single text-only part), `generate_slide_image` creates
a placeholder file via `touch()` and returns its path — it does not surface
"no artifact produced, no file created" as the claim states. -/
theorem C6_render_failure_counterexample :
    generate_slide_image 1
        (Except.ok [{ text := some (("model refused").data), inline_data := none }]) =
      (some 1, [FsWrite.placeholderTouched 1]) ∧
    ((some 1, [FsWrite.placeholderTouched 1]) :
      Option Nat × List FsWrite) ≠ (none, []) := by
  exact ⟨rfl, by decide⟩

/-- Helper: the accumulating loop of `generate_all_slide_images`. -/
theorem generate_all_acc (results : Nat → Except Unit (List GenPart)) :
    ∀ (slides : List Slide) (acc : List Nat × List FsWrite),
      slides.foldl
        (fun acc slide =>
          let r := generate_slide_image slide.slide_number (results slide.slide_number)
          match r.1 with
          | some p => (acc.1 ++ [p], acc.2 ++ r.2)
          | none => (acc.1, acc.2 ++ r.2))
        acc =
      (acc.1 ++ slides.filterMap
          (fun s => (generate_slide_image s.slide_number (results s.slide_number)).1),
        acc.2 ++ (slides.map
          (fun s => (generate_slide_image s.slide_number (results s.slide_number)).2)).flatten) := by
  intro slides
  induction slides with
  | nil => intro acc; simp
  | cons s rest ih =>
    intro acc
    rw [List.foldl_cons, ih]
    cases hr : (generate_slide_image s.slide_number (results s.slide_number)).1 with
    | some p =>
      simp only [hr, List.filterMap_cons, List.map_cons, List.flatten_cons]
      rw [List.append_assoc, List.append_assoc]
      exact congrArg _ rfl
    | none =>
      simp only [hr, List.filterMap_cons, List.map_cons, List.flatten_cons]
      rw [List.append_assoc]

/-- C6 amended: when the remote call raises, the failure is logged and
surfaces as no artifact with no file written; when the call succeeds but the
response carries no image data, an empty placeholder file is created and its
path is returned as that slide's artifact; in every case the caller
(`generate_all_slide_images`) processes all remaining slides — the collected
paths are exactly the per-slide successes, and a per-slide failure never
aborts the batch. -/
theorem C6_render_failure (num : Nat) (parts : List GenPart) (slides : List Slide)
    (results : Nat → Except Unit (List GenPart)) :
    (generate_slide_image num (Except.error ()) = (none, [])) ∧
    (savePart parts = none →
      generate_slide_image num (Except.ok parts) =
        (some num, [FsWrite.placeholderTouched num])) ∧
    ((generate_all_slide_images slides results).1 =
      slides.filterMap
        (fun s => (generate_slide_image s.slide_number (results s.slide_number)).1)) ∧
    ((generate_all_slide_images slides results).2 =
      (slides.map
        (fun s => (generate_slide_image s.slide_number (results s.slide_number)).2)).flatten) := by
  refine ⟨rfl, ?_, ?_, ?_⟩
  · intro h
    rw [generate_slide_image, h]
  · rw [generate_all_slide_images, generate_all_acc]
    simp
  · rw [generate_all_slide_images, generate_all_acc]
    simp

theorem C6_render_failure_witness :
    (generate_slide_image 1 (Except.error ()) = (none, [])) ∧
    (generate_slide_image 1 (Except.ok []) = (some 1, [FsWrite.placeholderTouched 1])) ∧
    ((generate_all_slide_images c6slides c6results).1 =
      c6slides.filterMap
        (fun s => (generate_slide_image s.slide_number (c6results s.slide_number)).1)) ∧
    ((generate_all_slide_images c6slides c6results).2 =
      (c6slides.map
        (fun s => (generate_slide_image s.slide_number (c6results s.slide_number)).2)).flatten) :=
  ⟨(C6_render_failure 1 [] c6slides c6results).1,
   (C6_render_failure 1 [] c6slides c6results).2.1 (by decide),
   (C6_render_failure 1 [] c6slides c6results).2.2.1,
   (C6_render_failure 1 [] c6slides c6results).2.2.2⟩

/-- C9: when a reference image is supplied, the renderer's prompt contains
the explicit match-the-reference-palette-and-style instruction (modelled from
the spec, since the renderer module `skeleton2slides.py` is absent from the
sources); and during expansion every replacement-range slide is rendered with
the original target slide's prior image passed as the theme reference
(provided that image was found next to the original presentation). -/
theorem C9_theme_reference (slide : Slide) (ref : Nat)
    (all : List Slide) (k nE : Nat) (pe ro : Nat → Bool) :
    (∃ l, generate_image_prompt_themed slide (some ref) =
      l ++ themeMatchInstruction) ∧
    (pe k = true →
      ∀ (i : Nat) (s : Slide), all[i]? = some s →
        k ≤ s.slide_number → s.slide_number < k + nE → ro s.slide_number = true →
        (expand_slide_artifacts all k nE true pe ro)[i]? =
          some (ImageAction.generated s.slide_number (some k))) := by
  constructor
  · refine ⟨generate_image_prompt slide ++ ['\n'], ?_⟩
    rw [generate_image_prompt_themed, List.append_assoc]
    rfl
  · intro hpe i s hs h1 h2 hro
    rw [expand_slide_artifacts, findThemeRef, if_pos rfl, if_pos hpe,
      reconcileImages, List.getElem?_map, hs, Option.map_some', reconcileOne]
    rw [if_pos ⟨h1, h2⟩, if_pos hro]

theorem C9_theme_reference_witness :
    (∃ l, generate_image_prompt_themed c9slide (some 2) =
      l ++ themeMatchInstruction) ∧
    (expand_slide_artifacts c4all 2 3 true (fun _ => true) (fun _ => true))[1]? =
      some (ImageAction.generated 2 (some 2)) :=
  ⟨(C9_theme_reference c9slide 2 c4all 2 3 (fun _ => true) (fun _ => true)).1,
   (C9_theme_reference c9slide 2 c4all 2 3 (fun _ => true) (fun _ => true)).2
     rfl 1 (c4all.get ⟨1, by decide⟩) (by decide) (by decide) (by decide) rfl⟩

/-- C7: in the body-line loop, a stripped line that starts with `-` but not
with the exact literal `- **Visual suggestion:**` is appended to the bullets
and never touches the hint; a stripped line that starts with that exact
literal sets the hint and is excluded from the bullets; concretely, the
lower-case variant `- **visual suggestion:** art` is parsed as an ordinary
bullet while the exact spelling is captured as the hint. -/
theorem C7_hint_exact_match :
    (∀ (acc : List Chars × Option Chars) (rawLine : Chars),
      ((['-']).isPrefixOf (pyStrip rawLine) = true →
        hintMarker.isPrefixOf (pyStrip rawLine) = false →
        processLine acc rawLine =
          (acc.1 ++ [pyStrip ((pyStrip rawLine).drop 1)], acc.2)) ∧
      (hintMarker.isPrefixOf (pyStrip rawLine) = true →
        processLine acc rawLine =
          (acc.1, some (pyStrip (removeOcc hintMarker (pyStrip rawLine)))))) ∧
    (parseBody (("x\n- **visual suggestion:** art").data) =
      ([("**visual suggestion:** art").data], none)) ∧
    (parseBody (("x\n- **Visual Suggestion:** art").data) =
      ([("**Visual Suggestion:** art").data], none)) ∧
    (parseBody (("x\n- **Visual suggestion:** art").data) =
      ([], some (("art").data))) := by
  refine ⟨?_, by decide, by decide, by decide⟩
  intro acc rawLine
  constructor
  · intro h1 h2
    rw [processLine]
    rw [if_pos (by rw [h1, h2]; rfl)]
  · intro h1
    rw [processLine]
    rw [if_neg (by rw [h1]; simp), if_pos h1]

theorem C7_hint_exact_match_witness :
    processLine ([("b").data], none) (("  - **Visual suggestion: ** art").data) =
      ([("b").data, ("**Visual suggestion: ** art").data], none) ∧
    processLine ([("b").data], none) (("- **Visual suggestion:** art").data) =
      ([("b").data], some (("art").data)) := by
  constructor
  · have := (C7_hint_exact_match.1 ([("b").data], none)
      (("  - **Visual suggestion: ** art").data)).1 (by decide) (by decide)
    rw [this]
    decide
  · have := (C7_hint_exact_match.1 ([("b").data], none)
      (("- **Visual suggestion:** art").data)).2 (by decide)
    rw [this]
    decide

/-! ## C10: marker recognition -/

/-- C10 counterexample: on
`"## Slide 1: A\n- x\n## Final Slide: Conclusion\n- y\n"` the heading
`## Final Slide:` is not a marker, but its text is NOT absorbed into the body
of slide 1 as the claim states: the lazy body of slide 1 stops at the
`## ` of that heading, so the heading and the bullet `- y` after it are
dropped entirely — slide 1 keeps only the bullet `x`. -/
theorem C10_marker_counterexample :
    parse_presentation_skeleton
        (("## Slide 1: A\n- x\n## Final Slide: Conclusion\n- y\n").data) =
      [{ slide_number := 1, title := ("A").data, bullet_points := [("x").data],
         visual_suggestion := none }] ∧
    ∀ s ∈ parse_presentation_skeleton
        (("## Slide 1: A\n- x\n## Final Slide: Conclusion\n- y\n").data),
      ("y").data ∉ s.bullet_points := by
  exact ⟨by decide, by decide⟩

/-- C10 amended: a heading is recognized as a slide marker only in the exact
form `## Slide <digits>: ` (the literal word `Slide` followed by one or more
decimal digits); a heading with any other label is not a marker, and — rather
than being absorbed into the preceding slide's body — that heading and all
text following it up to the next recognized marker are dropped (the
preceding slide's body ends at the heading's `## `); text before the first
recognized marker is likewise ignored. -/
theorem C10_marker_recognition :
    (∀ (cs : Chars) (x : Chars × Chars × Chars), tryMatch cs = some x →
      ∃ ds r, (∀ c ∈ ds, c.isDigit = true) ∧ ds ≠ [] ∧
        cs = ("## Slide ").data ++ ds ++ (": ").data ++ r) ∧
    (parse_presentation_skeleton
        (("## Slide 1: A\n- x\n## Final Slide: Conclusion\n- y\n").data) =
      [{ slide_number := 1, title := ("A").data, bullet_points := [("x").data],
         visual_suggestion := none }]) ∧
    (parse_presentation_skeleton (("## Slide A: Intro\n- x\n").data) = []) := by
  refine ⟨?_, by decide, by decide⟩
  intro cs x h
  unfold tryMatch at h
  by_cases h1 : (("## Slide ").data).isPrefixOf cs = true
  · rw [if_pos h1] at h
    obtain ⟨after, hafter⟩ := exists_append_of_isPrefixOf h1
    have hdrop : cs.drop 9 = after := by
      rw [hafter, show (9 : Nat) = (("## Slide ").data).length from rfl,
        List.drop_left]
    rw [hdrop] at h
    by_cases h2 : ((!(after.takeWhile Char.isDigit).isEmpty) &&
        ((": ").data).isPrefixOf (after.dropWhile Char.isDigit)) = true
    · rw [if_pos h2] at h
      simp only [Bool.and_eq_true, Bool.not_eq_true'] at h2
      obtain ⟨hne, hcolon⟩ := h2
      obtain ⟨r, hr⟩ := exists_append_of_isPrefixOf hcolon
      refine ⟨after.takeWhile Char.isDigit, r, ?_, ?_, ?_⟩
      · intro c hc
        exact List.mem_takeWhile_imp hc
      · intro hcon
        rw [hcon] at hne
        exact absurd hne (by simp)
      · have hsplit : after = after.takeWhile Char.isDigit ++ ((": ").data ++ r) := by
          conv_lhs =>
            rw [← List.takeWhile_append_dropWhile (p := Char.isDigit) (l := after)]
          rw [hr]
        conv_lhs => rw [hafter, hsplit]
        simp [List.append_assoc]
    · rw [if_neg h2] at h
      exact absurd h (by simp)
  · rw [if_neg h1] at h
    exact absurd h (by simp)

theorem C10_marker_recognition_witness :
    ∃ ds r, (∀ c ∈ ds, c.isDigit = true) ∧ ds ≠ [] ∧
      ("## Slide 12: T\nx").data = ("## Slide ").data ++ ds ++ (": ").data ++ r :=
  C10_marker_recognition.1 (("## Slide 12: T\nx").data)
    ((("Slide 12").data), (("T\nx").data), []) (by decide)

/-! ## C5: batch-size normalization of `expand_slide_content` -/

theorem padSlides_eq {es : List Slide} (slide : Slide) (h : es.length < 3) :
    padSlides es slide = es ++ (List.range (3 - es.length)).map
      (fun j => { slide with title := partTitle slide (es.length + j + 1) }) := by
  have h3 : es.length = 0 ∨ es.length = 1 ∨ es.length = 2 := by omega
  rcases h3 with h0 | h0 | h0 <;>
    simp [padSlides, padLoop, h0, List.range_succ]

/-- C5: the batch-synthesis step always returns exactly 3 entries: a parsed
batch of more than 3 is truncated to the first 3; a parsed batch of fewer
than 3 is padded with copies of the target slide whose titles carry a
`(Part k)` suffix; and when the generation call raises, the result is 3 such
copies — every padded or fallback entry contains the original target slide's
title as a substring (its prefix), and the failure is never propagated. -/
theorem C5_batch_normalization (slide : Slide) (r : Except Unit Chars) :
    (expand_slide_content slide r).length = 3 ∧
    (∀ e : Unit, r = Except.error e →
      expand_slide_content slide r =
        (List.range 3).map (fun i => { slide with title := partTitle slide (i + 1) }) ∧
      (∀ p ∈ expand_slide_content slide r, ∃ suffix, p.title = slide.title ++ suffix)) ∧
    (∀ txt, r = Except.ok txt → 3 < (parse_presentation_skeleton txt).length →
      expand_slide_content slide r = (parse_presentation_skeleton txt).take 3) ∧
    (∀ txt, r = Except.ok txt → (parse_presentation_skeleton txt).length < 3 →
      expand_slide_content slide r =
        parse_presentation_skeleton txt ++
          (List.range (3 - (parse_presentation_skeleton txt).length)).map
            (fun j => { slide with title := partTitle slide ((parse_presentation_skeleton txt).length + j + 1) }) ∧
      (∀ p ∈ (List.range (3 - (parse_presentation_skeleton txt).length)).map
            (fun j => { slide with title := partTitle slide ((parse_presentation_skeleton txt).length + j + 1) }),
        ∃ suffix, p.title = slide.title ++ suffix)) := by
  refine ⟨?_, ?_, ?_, ?_⟩
  · cases r with
    | error e => simp [expand_slide_content]
    | ok txt =>
      rw [expand_slide_content]
      by_cases h3 : (parse_presentation_skeleton txt).length = 3
      · rw [if_neg (by omega)]
        exact h3
      · rw [if_pos h3]
        by_cases hgt : (parse_presentation_skeleton txt).length > 3
        · rw [if_pos hgt, List.length_take]
          omega
        · rw [if_neg hgt, padSlides_eq slide (by omega)]
          simp only [List.length_append, List.length_map, List.length_range]
          omega
  · intro e he
    subst he
    refine ⟨rfl, ?_⟩
    intro p hp
    rw [show expand_slide_content slide (Except.error e) =
      (List.range 3).map (fun i => { slide with title := partTitle slide (i + 1) })
      from rfl] at hp
    obtain ⟨i, _, hip⟩ := List.mem_map.mp hp
    refine ⟨(" (Part ").data ++ natToChars (i + 1) ++ (")").data, ?_⟩
    rw [← hip]
    show partTitle slide (i + 1) = _
    rw [partTitle]
    simp [List.append_assoc]
  · intro txt htxt hgt
    subst htxt
    rw [expand_slide_content, if_pos (by omega), if_pos hgt]
  · intro txt htxt hlt
    subst htxt
    refine ⟨?_, ?_⟩
    · rw [expand_slide_content, if_pos (by omega), if_neg (by omega),
        padSlides_eq slide hlt]
    · intro p hp
      obtain ⟨j, _, hjp⟩ := List.mem_map.mp hp
      refine ⟨(" (Part ").data ++
        natToChars ((parse_presentation_skeleton txt).length + j + 1) ++
        (")").data, ?_⟩
      rw [← hjp]
      show partTitle slide _ = _
      rw [partTitle]
      simp [List.append_assoc]

theorem C5_batch_normalization_witness :
    (expand_slide_content c9slide (Except.error ())).length = 3 ∧
    (expand_slide_content c9slide (Except.error ()) =
      (List.range 3).map (fun i => { c9slide with title := partTitle c9slide (i + 1) })) ∧
    (expand_slide_content c9slide (Except.ok c5txt) =
      parse_presentation_skeleton c5txt ++
        (List.range (3 - (parse_presentation_skeleton c5txt).length)).map
          (fun j => { c9slide with title := partTitle c9slide ((parse_presentation_skeleton c5txt).length + j + 1) })) :=
  ⟨(C5_batch_normalization c9slide (Except.error ())).1,
   ((C5_batch_normalization c9slide (Except.error ())).2.1 () rfl).1,
   ((C5_batch_normalization c9slide (Except.ok c5txt)).2.2.2 c5txt rfl (by decide)).1⟩

theorem not_mem_of_contains_false {c : Char} {cs : Chars}
    (h : cs.contains c = false) : c ∉ cs := by
  intro hm
  have ht : cs.contains c = true := List.elem_iff.mpr hm
  rw [h] at ht
  exact absurd ht (by simp)

theorem pyStrip_eq_self {cs : Chars} (h1 : cs.dropWhile pyWs = cs)
    (h2 : cs.reverse.dropWhile pyWs = cs.reverse) : pyStrip cs = cs := by
  rw [pyStrip, h1, h2, List.reverse_reverse]

theorem dropWhile_cons_false {c : Char} {cs : Chars} (h : pyWs c = false) :
    (c :: cs).dropWhile pyWs = c :: cs := by
  simp [List.dropWhile_cons, h]

theorem head_not_ws_of_dropWhile_self {c : Char} {cs : Chars}
    (h : (c :: cs).dropWhile pyWs = c :: cs) : pyWs c = false := by
  cases hc : pyWs c with
  | false => rfl
  | true =>
    rw [List.dropWhile_cons, hc, if_pos rfl] at h
    have hle := (List.dropWhile_sublist (l := cs) pyWs).length_le
    have := congrArg List.length h
    simp at this
    omega

theorem pyStrip_ws_cons {b : Chars} (hb1 : b.dropWhile pyWs = b)
    (hb2 : b.reverse.dropWhile pyWs = b.reverse) : pyStrip (' ' :: b) = b := by
  rw [pyStrip, List.dropWhile_cons, if_pos (by decide), hb1, hb2,
    List.reverse_reverse]

theorem lineOkB_parts {cs : Chars} (h : lineOkB cs = true) :
    cs.dropWhile pyWs = cs ∧ cs.reverse.dropWhile pyWs = cs.reverse ∧
    '\n' ∉ cs ∧ hasSub (("## ").data) cs = false := by
  rw [lineOkB] at h
  simp only [Bool.and_eq_true, beq_iff_eq, Bool.not_eq_true'] at h
  exact ⟨h.1.1.1, h.1.1.2, not_mem_of_contains_false h.1.2, h.2⟩

theorem removeOccGo_no {pat : Chars} :
    ∀ (cs : Chars) (fuel : Nat), hasSub pat cs = false → cs.length ≤ fuel →
      removeOccGo pat fuel cs = cs := by
  intro cs
  induction cs with
  | nil => intro fuel _ _; cases fuel <;> rfl
  | cons c cs ih =>
    intro fuel hno hlen
    cases fuel with
    | zero => simp at hlen
    | succ fuel =>
      rw [show hasSub pat (c :: cs) =
        (pat.isPrefixOf (c :: cs) || hasSub pat cs) from rfl] at hno
      simp only [Bool.or_eq_false_iff] at hno
      rw [removeOccGo, if_neg (by rw [hno.1]; simp)]
      rw [ih fuel hno.2 (by simp at hlen; omega)]

theorem removeOcc_marker {pat rest : Chars} (hpat : pat ≠ [])
    (hno : hasSub pat rest = false) : removeOcc pat (pat ++ rest) = rest := by
  cases pat with
  | nil => exact absurd rfl hpat
  | cons p0 pt =>
    have hpref : (p0 :: pt).isPrefixOf (p0 :: pt ++ rest) = true :=
      isPrefixOf_append_self _ _
    rw [removeOcc,
      show ((p0 :: pt ++ rest) : Chars).length = (pt ++ rest).length + 1 from by simp]
    rw [show removeOccGo (p0 :: pt) ((pt ++ rest).length + 1) (p0 :: pt ++ rest) =
      if (!(p0 :: pt : Chars).isEmpty) && (p0 :: pt).isPrefixOf (p0 :: pt ++ rest) then
        removeOccGo (p0 :: pt) ((pt ++ rest).length)
          ((p0 :: pt ++ rest : Chars).drop (p0 :: pt : Chars).length)
      else p0 :: removeOccGo (p0 :: pt) ((pt ++ rest).length) (pt ++ rest) from rfl]
    rw [if_pos (by simp [hpref])]
    rw [show ((p0 :: pt ++ rest : Chars)).drop (p0 :: pt : Chars).length = rest from by
      rw [show ((p0 :: pt ++ rest) : Chars) = (p0 :: pt) ++ rest from rfl,
        List.drop_left]]
    exact removeOccGo_no rest _ hno (by simp)

theorem isPrefixOf_append_both (p q r : Chars) :
    (p ++ q).isPrefixOf (p ++ r) = q.isPrefixOf r := by
  induction p with
  | nil => rfl
  | cons a p ih => simp [List.isPrefixOf, ih]

theorem processLine_skip {t : Chars} (acc : List Chars × Option Chars)
    (hstrip : pyStrip t = t) (hnd : (['-']).isPrefixOf t = false) :
    processLine acc t = acc := by
  have hmk : hintMarker.isPrefixOf t = false := by
    cases h : hintMarker.isPrefixOf t with
    | false => rfl
    | true =>
      have := isPrefixOf_trans (show (['-']).isPrefixOf hintMarker = true by decide) h
      rw [this] at hnd
      exact absurd hnd (by simp)
  rw [processLine]
  simp only [hstrip]
  rw [if_neg (by rw [hnd]; simp), if_neg (by rw [hmk]; simp)]

theorem processLine_empty (acc : List Chars × Option Chars) :
    processLine acc [] = acc :=
  processLine_skip acc (by decide) (by decide)

theorem processLine_bullet {b : Chars} (acc : List Chars × Option Chars)
    (hb1 : b.dropWhile pyWs = b) (hb2 : b.reverse.dropWhile pyWs = b.reverse)
    (hvs : (("**Visual suggestion:**").data).isPrefixOf b = false) :
    processLine acc (("- ").data ++ b) = (acc.1 ++ [b], acc.2) := by
  cases b with
  | nil =>
    rw [processLine]
    simp only [show pyStrip ((("- ").data ++ ([] : Chars))) = ['-'] from by decide]
    rw [if_pos (by decide)]
    rw [show pyStrip ((['-'] : Chars).drop 1) = ([] : Chars) from by decide]
  | cons c b' =>
    have hc : pyWs c = false := head_not_ws_of_dropWhile_self hb1
    obtain ⟨d, rv, hrev⟩ : ∃ d rv, (c :: b').reverse = d :: rv := by
      cases hr : (c :: b').reverse with
      | nil =>
        have := congrArg List.length hr
        simp at this
      | cons d rv => exact ⟨d, rv, rfl⟩
    have hd : pyWs d = false := by
      rw [hrev] at hb2
      exact head_not_ws_of_dropWhile_self hb2
    have hline : (("- ").data ++ (c :: b') : Chars) = '-' :: ' ' :: (c :: b') := rfl
    have hstrip : pyStrip ('-' :: ' ' :: (c :: b')) = '-' :: ' ' :: (c :: b') := by
      apply pyStrip_eq_self
      · exact dropWhile_cons_false (by decide)
      · rw [show ('-' :: ' ' :: (c :: b') : Chars).reverse =
          (c :: b').reverse ++ [' ', '-'] from by simp, hrev,
          show ((d :: rv) ++ [' ', '-'] : Chars) = d :: (rv ++ [' ', '-']) from rfl]
        exact dropWhile_cons_false hd
    rw [hline, processLine]
    simp only [hstrip]
    rw [if_pos (by
      have h1 : (['-'] : Chars).isPrefixOf ('-' :: ' ' :: (c :: b')) = true := by
        simp [List.isPrefixOf]
      have h2 : hintMarker.isPrefixOf ('-' :: ' ' :: (c :: b')) = false := by
        rw [show hintMarker = ("- ").data ++ ("**Visual suggestion:**").data from
          by decide,
          show ('-' :: ' ' :: (c :: b') : Chars) = ("- ").data ++ (c :: b') from rfl,
          isPrefixOf_append_both]
        exact hvs
      rw [h1, h2]
      rfl)]
    rw [show (('-' :: ' ' :: (c :: b') : Chars)).drop 1 = ' ' :: (c :: b') from rfl,
      pyStrip_ws_cons hb1 hb2]

theorem processLine_hint {v : Chars} (acc : List Chars × Option Chars)
    (hv1 : v.dropWhile pyWs = v) (hv2 : v.reverse.dropWhile pyWs = v.reverse)
    (hvne : v ≠ []) (hsub : hasSub hintMarker v = false) :
    processLine acc (hintMarker ++ ' ' :: v) = (acc.1, some v) := by
  obtain ⟨d, rv, hrev⟩ : ∃ d rv, v.reverse = d :: rv := by
    cases hr : v.reverse with
    | nil =>
      have := congrArg List.length hr
      simp at this
      exact absurd this hvne
    | cons d rv => exact ⟨d, rv, rfl⟩
  have hd : pyWs d = false := by
    rw [hrev] at hv2
    exact head_not_ws_of_dropWhile_self hv2
  have hstrip : pyStrip (hintMarker ++ ' ' :: v) = hintMarker ++ ' ' :: v := by
    apply pyStrip_eq_self
    · rw [show hintMarker = '-' :: (" **Visual suggestion:**").data from by decide,
        List.cons_append]
      exact dropWhile_cons_false (by decide)
    · rw [show (hintMarker ++ ' ' :: v : Chars).reverse =
        v.reverse ++ (' ' :: hintMarker.reverse) from by simp, hrev,
        show ((d :: rv) ++ (' ' :: hintMarker.reverse) : Chars) =
          d :: (rv ++ (' ' :: hintMarker.reverse)) from rfl]
      exact dropWhile_cons_false hd
  have hmk : hintMarker.isPrefixOf (hintMarker ++ ' ' :: v) = true :=
    isPrefixOf_append_self _ _
  have hno : hasSub hintMarker (' ' :: v) = false := by
    rw [show hasSub hintMarker (' ' :: v) =
      (hintMarker.isPrefixOf (' ' :: v) || hasSub hintMarker v) from rfl]
    rw [hsub, show hintMarker.isPrefixOf (' ' :: v) = false from by
      rw [show hintMarker = '-' :: (" **Visual suggestion:**").data from by decide]
      simp [List.isPrefixOf]]
    rfl
  rw [processLine]
  simp only [hstrip]
  rw [if_neg (by rw [hmk]; simp), if_pos hmk,
    removeOcc_marker (by decide) hno, pyStrip_ws_cons hv1 hv2]

theorem slideToLines_decomp (s : Slide) :
    slideToLines s =
      (("## Slide ").data ++ natToChars s.slide_number ++ (": ").data ++ s.title)
        :: (bodyLinesOf s ++ [[]]) := by
  rw [slideToLines, bodyLinesOf, List.append_assoc]

theorem wf_parts {s : Slide} (hwf : wellFormedSlide s = true) :
    s.title ≠ [] ∧ lineOkB s.title = true ∧ (['-']).isPrefixOf s.title = false ∧
    (∀ b ∈ s.bullet_points, lineOkB b = true ∧
      (("**Visual suggestion:**").data).isPrefixOf b = false) ∧
    (∀ v, s.visual_suggestion = some v →
      v ≠ [] ∧ lineOkB v = true ∧ hasSub hintMarker v = false) := by
  rw [wellFormedSlide] at hwf
  simp only [Bool.and_eq_true, Bool.not_eq_true', List.all_eq_true] at hwf
  obtain ⟨⟨⟨⟨h1, h2⟩, h3⟩, h4⟩, h5⟩ := hwf
  refine ⟨?_, h2, h3, ?_, ?_⟩
  · intro hcon
    rw [hcon] at h1
    exact absurd h1 (by simp)
  · intro b hb
    have := h4 b hb
    simp only [Bool.and_eq_true, Bool.not_eq_true'] at this
    exact this
  · intro v hv
    rw [hv] at h5
    simp only [Option.all, Bool.and_eq_true, Bool.not_eq_true'] at h5
    refine ⟨?_, h5.1.2, h5.2⟩
    intro hcon
    rw [hcon] at h5
    simp at h5

theorem splitNl_no_nl {x : Chars} (h : '\n' ∉ x) : splitNl x = [x] := by
  induction x with
  | nil => rfl
  | cons c x ih =>
    have hc : ¬ (c = '\n') := by
      intro hcon
      exact h (by rw [hcon]; simp)
    rw [splitNl, if_neg hc, ih (by intro hm; exact h (by simp [hm]))]

theorem splitNl_append_nl {x t : Chars} (h : '\n' ∉ x) :
    splitNl (x ++ '\n' :: t) = x :: splitNl t := by
  induction x with
  | nil =>
    show splitNl ('\n' :: t) = [] :: splitNl t
    rw [splitNl, if_pos rfl]
  | cons c x ih =>
    have hc : ¬ (c = '\n') := by
      intro hcon
      exact h (by rw [hcon]; simp)
    show splitNl (c :: (x ++ '\n' :: t)) = (c :: x) :: splitNl t
    rw [splitNl, if_neg hc, ih (by intro hm; exact h (by simp [hm]))]

theorem splitNl_joinNl (lines : List Chars) (hne : lines ≠ [])
    (h : ∀ l ∈ lines, '\n' ∉ l) : splitNl (joinNl lines) = lines := by
  induction lines with
  | nil => exact absurd rfl hne
  | cons x rest ih =>
    cases rest with
    | nil => exact splitNl_no_nl (h x (by simp))
    | cons y rest' =>
      rw [show joinNl (x :: y :: rest') = x ++ '\n' :: joinNl (y :: rest') from rfl,
        splitNl_append_nl (h x (by simp)),
        ih (by simp) (fun l hl => h l (by simp [hl]))]

theorem joinNl_append (A B : List Chars) (hA : A ≠ []) (hB : B ≠ []) :
    joinNl (A ++ B) = joinNl A ++ '\n' :: joinNl B := by
  induction A with
  | nil => exact absurd rfl hA
  | cons a A' ih =>
    cases A' with
    | nil =>
      cases B with
      | nil => exact absurd rfl hB
      | cons b B' => rfl
    | cons a' A'' =>
      rw [show ((a :: a' :: A'') ++ B : List Chars) = a :: ((a' :: A'') ++ B) from rfl,
        show joinNl (a :: a' :: A'') = a ++ '\n' :: joinNl (a' :: A'') from rfl]
      rw [show joinNl (a :: ((a' :: A'') ++ B)) =
        a ++ '\n' :: joinNl ((a' :: A'') ++ B) from by
          cases A'' <;> cases B <;> rfl]
      rw [ih (by simp)]
      simp

theorem foldl_empties : ∀ (ls : List Chars), (∀ l ∈ ls, l = []) →
    ∀ acc, ls.foldl processLine acc = acc := by
  intro ls
  induction ls with
  | nil => intro _ acc; rfl
  | cons l ls ih =>
    intro h acc
    rw [List.foldl_cons, h l (by simp), processLine_empty]
    exact ih (fun l' hl' => h l' (by simp [hl'])) acc

theorem foldl_bullets (bs : List Chars)
    (h : ∀ b ∈ bs, lineOkB b = true ∧
      (("**Visual suggestion:**").data).isPrefixOf b = false) :
    ∀ (acc : List Chars) (v : Option Chars),
      (bs.map (fun b => ("- ").data ++ b)).foldl processLine (acc, v) =
        (acc ++ bs, v) := by
  induction bs with
  | nil => intro acc v; simp
  | cons b bs ih =>
    intro acc v
    obtain ⟨hok, hvs⟩ := h b (by simp)
    obtain ⟨h1, h2, _, _⟩ := lineOkB_parts hok
    rw [List.map_cons, List.foldl_cons,
      show processLine (acc, v) (("- ").data ++ b) = (acc ++ [b], v) from
        processLine_bullet (acc, v) h1 h2 hvs,
      ih (fun b' hb' => h b' (by simp [hb'])) (acc ++ [b]) v]
    simp

theorem mkSlideRec_serialized (s : Slide) (hwf : wellFormedSlide s = true)
    (extra : List Chars) (hex : ∀ l ∈ extra, l = []) (i : Nat) :
    mkSlideRec i (joinNl ((s.title :: bodyLinesOf s) ++ extra)) =
      { s with slide_number := i } := by
  obtain ⟨htne, htok, htnd, hbs, hvs⟩ := wf_parts hwf
  obtain ⟨ht1, ht2, htnl, _⟩ := lineOkB_parts htok
  have hnl : ∀ l ∈ (s.title :: bodyLinesOf s) ++ extra, '\n' ∉ l := by
    intro l hl
    rw [List.mem_append] at hl
    rcases hl with hl | hl
    · rcases List.mem_cons.mp hl with rfl | hl
      · exact htnl
      · rw [bodyLinesOf, List.mem_append] at hl
        rcases hl with hl | hl
        · obtain ⟨b, hb, rfl⟩ := List.mem_map.mp hl
          obtain ⟨_, _, hbnl, _⟩ := lineOkB_parts (hbs b hb).1
          intro hm
          rw [List.mem_append] at hm
          rcases hm with hm | hm
          · exact absurd hm (by decide)
          · exact hbnl hm
        · cases hov : s.visual_suggestion with
          | none => rw [hov] at hl; simp at hl
          | some v =>
            rw [hov] at hl
            obtain ⟨hvne, hvok, _⟩ := hvs v hov
            obtain ⟨_, _, hvnl, _⟩ := lineOkB_parts hvok
            have hve : v.isEmpty = false := by simpa using hvne
            have hl' : l = hintMarker ++ ' ' :: v := by
              simpa [hve] using hl
            subst hl'
            intro hm
            rw [List.mem_append] at hm
            rcases hm with hm | hm
            · exact absurd hm (by decide)
            · rcases List.mem_cons.mp hm with h32 | hm
              · exact absurd h32 (by decide)
              · exact hvnl hm
    · rw [hex l hl]
      simp
  have hsplit : splitNl (joinNl ((s.title :: bodyLinesOf s) ++ extra)) =
      (s.title :: bodyLinesOf s) ++ extra :=
    splitNl_joinNl _ (by simp) hnl
  rw [mkSlideRec, hsplit]
  have hhead : (((s.title :: bodyLinesOf s) ++ extra).headD []) = s.title := rfl
  have hfold : (((s.title :: bodyLinesOf s) ++ extra)).foldl processLine ([], none) =
      (s.bullet_points, s.visual_suggestion) := by
    rw [List.foldl_append, List.foldl_cons,
      processLine_skip ([], none) (pyStrip_eq_self ht1 ht2) htnd,
      bodyLinesOf, List.foldl_append,
      foldl_bullets s.bullet_points hbs [] none]
    cases hov : s.visual_suggestion with
    | none =>
      show List.foldl processLine
        (List.foldl processLine ([] ++ s.bullet_points, none) ([] : List Chars))
        extra = (s.bullet_points, none)
      rw [List.foldl_nil, List.nil_append]
      exact foldl_empties extra hex _
    | some v =>
      obtain ⟨hvne, hvok, hvsub⟩ := hvs v hov
      obtain ⟨hv1, hv2, _, _⟩ := lineOkB_parts hvok
      have hve : v.isEmpty = false := by simpa using hvne
      show List.foldl processLine
        (List.foldl processLine ([] ++ s.bullet_points, none)
          (if v.isEmpty = true then ([] : List Chars) else [hintMarker ++ ' ' :: v]))
        extra = (s.bullet_points, some v)
      rw [List.nil_append, if_neg (by rw [hve]; simp), List.foldl_cons,
        List.foldl_nil,
        processLine_hint (s.bullet_points, none) hv1 hv2 hvne hvsub]
      exact foldl_empties extra hex _
  have hpb : parseBody (joinNl ((s.title :: bodyLinesOf s) ++ extra)) =
      (s.bullet_points, s.visual_suggestion) := by
    rw [parseBody, hsplit]
    exact hfold
  rw [hpb, hhead, pyStrip_eq_self ht1 ht2]

/-! ## Substring lemmas used to locate the lazy-body stops -/

theorem hasSub_cons_eq (pat : Chars) (c : Char) (cs : Chars) :
    hasSub pat (c :: cs) = (pat.isPrefixOf (c :: cs) || hasSub pat cs) := rfl

theorem hasSub_nil_of_ne {pat : Chars} (hp : pat ≠ []) : hasSub pat [] = false := by
  cases pat with
  | nil => exact absurd rfl hp
  | cons p0 pt => rfl

theorem isPrefixOf_short {p : Chars} : ∀ (x y : Chars),
    p.isPrefixOf (x ++ y) = true → p.length ≤ x.length → p.isPrefixOf x = true := by
  induction p with
  | nil => intro x y _ _; cases x <;> rfl
  | cons a p ih =>
    intro x y h hlen
    cases x with
    | nil => simp at hlen
    | cons c x' =>
      simp only [List.cons_append, List.isPrefixOf, Bool.and_eq_true] at h ⊢
      exact ⟨h.1, ih x' y h.2 (by simp at hlen; omega)⟩

theorem mem_of_isPrefixOf_long {p : Chars} {d : Char} : ∀ {x : Chars} (y : Chars),
    p.isPrefixOf (x ++ d :: y) = true → x.length < p.length → d ∈ p := by
  induction p with
  | nil => intro x y _ hlen; simp at hlen
  | cons a p ih =>
    intro x y h hlen
    cases x with
    | nil =>
      simp only [List.nil_append, List.isPrefixOf, Bool.and_eq_true, beq_iff_eq] at h
      rw [h.1]
      simp
    | cons c x' =>
      simp only [List.cons_append, List.isPrefixOf, Bool.and_eq_true] at h
      have := ih y h.2 (by simp at hlen; omega)
      simp [this]

theorem hasSub_append_nl {pat : Chars} (hnl : '\n' ∉ pat) (hp : pat ≠ []) :
    ∀ {a b : Chars}, hasSub pat a = false → hasSub pat b = false →
      hasSub pat (a ++ '\n' :: b) = false := by
  intro a
  induction a with
  | nil =>
    intro b _ hb
    rw [List.nil_append, hasSub_cons_eq, hb]
    have : pat.isPrefixOf ('\n' :: b) = false := by
      cases hc : pat.isPrefixOf ('\n' :: b) with
      | false => rfl
      | true =>
        refine absurd (mem_of_isPrefixOf_long (x := []) b hc ?_) hnl
        cases pat with
        | nil => exact absurd rfl hp
        | cons p0 pt => simp
    rw [this]
    rfl
  | cons c a' ih =>
    intro b ha hb
    rw [hasSub_cons_eq] at ha
    simp only [Bool.or_eq_false_iff] at ha
    rw [List.cons_append, hasSub_cons_eq, ih ha.2 hb]
    have : pat.isPrefixOf (c :: (a' ++ '\n' :: b)) = false := by
      cases hc : pat.isPrefixOf (c :: (a' ++ '\n' :: b)) with
      | false => rfl
      | true =>
        by_cases hlen : pat.length ≤ (c :: a').length
        · have := isPrefixOf_short (x := c :: a') ('\n' :: b)
            (by rw [show (c :: a') ++ '\n' :: b = c :: (a' ++ '\n' :: b) from rfl]
                exact hc) hlen
          rw [this] at ha
          exact absurd ha.1 (by simp)
        · exact absurd (mem_of_isPrefixOf_long (x := c :: a') b
            (by rw [show (c :: a') ++ '\n' :: b = c :: (a' ++ '\n' :: b) from rfl]
                exact hc) (by omega)) hnl
    rw [this]
    rfl

theorem hasSub_joinNl {pat : Chars} (hnl : '\n' ∉ pat) (hp : pat ≠ []) :
    ∀ (lines : List Chars), (∀ l ∈ lines, hasSub pat l = false) →
      hasSub pat (joinNl lines) = false := by
  intro lines
  induction lines with
  | nil => intro _; exact hasSub_nil_of_ne hp
  | cons x rest ih =>
    intro h
    cases rest with
    | nil => exact h x (by simp)
    | cons y rest' =>
      rw [show joinNl (x :: y :: rest') = x ++ '\n' :: joinNl (y :: rest') from rfl]
      exact hasSub_append_nl hnl hp (h x (by simp))
        (ih (fun l hl => h l (by simp [hl])))

theorem hasSub_append_left_none {p0 : Char} {pt : Chars} :
    ∀ {a : Chars} (b : Chars), p0 ∉ a → hasSub (p0 :: pt) b = false →
      hasSub (p0 :: pt) (a ++ b) = false := by
  intro a
  induction a with
  | nil => intro b _ hb; exact hb
  | cons c a' ih =>
    intro b ha hb
    rw [List.cons_append, hasSub_cons_eq, ih b (by intro hm; exact ha (by simp [hm])) hb]
    have hc : ¬ (p0 = c) := by
      intro hcon
      exact ha (by rw [hcon]; simp)
    rw [show ((p0 :: pt).isPrefixOf (c :: (a' ++ b))) =
      ((p0 == c) && pt.isPrefixOf (a' ++ b)) from rfl]
    rw [show (p0 == c) = false from by simpa using hc]
    rfl

theorem hasSub_of_suffix {pat t : Chars} : ∀ (u : Chars),
    pat.isPrefixOf t = true → hasSub pat (u ++ t) = true := by
  intro u
  induction u with
  | nil =>
    intro h
    cases t with
    | nil =>
      cases pat with
      | nil => rfl
      | cons p0 pt => simp [List.isPrefixOf] at h
    | cons c t' =>
      rw [List.nil_append, hasSub_cons_eq, h]
      rfl
  | cons c u' ih =>
    intro h
    rw [List.cons_append, hasSub_cons_eq, ih h]
    simp

theorem natToChars_ne_nil (n : Nat) : natToChars n ≠ [] := by
  rw [natToChars, natToCharsGo]
  by_cases h : n < 10
  · rw [if_pos h]; simp
  · rw [if_neg h]; simp

theorem digitChar_isDigit : ∀ m, m < 10 → (Nat.digitChar m).isDigit = true := by
  decide

theorem natToCharsGo_digits : ∀ (fuel n : Nat), ∀ c ∈ natToCharsGo fuel n,
    c.isDigit = true := by
  intro fuel
  induction fuel with
  | zero => intro n c hc; simp [natToCharsGo] at hc
  | succ fuel ih =>
    intro n c hc
    rw [natToCharsGo] at hc
    by_cases h : n < 10
    · rw [if_pos h] at hc
      simp only [List.mem_singleton] at hc
      rw [hc]
      exact digitChar_isDigit n h
    · rw [if_neg h] at hc
      rw [List.mem_append] at hc
      rcases hc with hc | hc
      · exact ih (n / 10) c hc
      · simp only [List.mem_singleton] at hc
        rw [hc]
        exact digitChar_isDigit _ (Nat.mod_lt _ (by omega))

theorem natToChars_digits (n : Nat) : ∀ c ∈ natToChars n, c.isDigit = true :=
  natToCharsGo_digits (n + 1) n

theorem takeWhile_all_append {p : Char → Bool} :
    ∀ (ds : Chars) {x : Char} (r : Chars), (∀ c ∈ ds, p c = true) → p x = false →
      (ds ++ x :: r).takeWhile p = ds ∧ (ds ++ x :: r).dropWhile p = x :: r := by
  intro ds
  induction ds with
  | nil =>
    intro x r _ hx
    constructor
    · rw [List.nil_append, List.takeWhile_cons, hx]
      simp
    · rw [List.nil_append, List.dropWhile_cons, hx]
      simp
  | cons d ds' ih =>
    intro x r h hx
    have hd : p d = true := h d (by simp)
    obtain ⟨ht, hd2⟩ := ih r (fun c hc => h c (by simp [hc])) hx
    constructor
    · rw [List.cons_append, List.takeWhile_cons, hd]
      simp [ht]
    · rw [List.cons_append, List.dropWhile_cons, hd]
      simp [hd2]

theorem hasSub_hh_content (s : Slide) (hwf : wellFormedSlide s = true)
    (extra : List Chars) (hex : ∀ l ∈ extra, l = []) :
    hasSub (("## ").data) (contentFor s extra) = false := by
  obtain ⟨htne, htok, htnd, hbs, hvs⟩ := wf_parts hwf
  apply hasSub_joinNl (by decide) (by decide)
  intro l hl
  rw [List.mem_append] at hl
  rcases hl with hl | hl
  · rcases List.mem_cons.mp hl with rfl | hl
    · exact (lineOkB_parts htok).2.2.2
    · rw [bodyLinesOf, List.mem_append] at hl
      rcases hl with hl | hl
      · obtain ⟨b, hb, rfl⟩ := List.mem_map.mp hl
        have hbsub : hasSub (("## ").data) b = false := (lineOkB_parts (hbs b hb).1).2.2.2
        rw [show ("## ").data = '#' :: (("# ").data) from by decide] at hbsub ⊢
        exact hasSub_append_left_none b (by decide) hbsub
      · cases hov : s.visual_suggestion with
        | none => rw [hov] at hl; simp at hl
        | some v =>
          rw [hov] at hl
          obtain ⟨hvne, hvok, _⟩ := hvs v hov
          have hve : v.isEmpty = false := by simpa using hvne
          have hl' : l = hintMarker ++ ' ' :: v := by simpa [hve] using hl
          subst hl'
          have hvsub : hasSub (("## ").data) v = false := (lineOkB_parts hvok).2.2.2
          rw [show ("## ").data = '#' :: (("# ").data) from by decide] at hvsub ⊢
          apply hasSub_append_left_none (' ' :: v) (by decide)
          rw [hasSub_cons_eq, hvsub,
            show (('#' :: ("# ").data).isPrefixOf (' ' :: v)) = false from by
              simp [List.isPrefixOf]]
          rfl
  · rw [hex l hl]
    exact hasSub_nil_of_ne (by decide)

theorem contentFor_ne_nil (s : Slide) (hwf : wellFormedSlide s = true)
    (extra : List Chars) : contentFor s extra ≠ [] := by
  obtain ⟨htne, _, _, _, _⟩ := wf_parts hwf
  rw [contentFor]
  cases hbe : bodyLinesOf s ++ extra with
  | nil =>
    rw [show ((s.title :: bodyLinesOf s) ++ extra : List Chars) =
      s.title :: (bodyLinesOf s ++ extra) from rfl, hbe]
    exact htne
  | cons l ls =>
    rw [show ((s.title :: bodyLinesOf s) ++ extra : List Chars) =
      s.title :: (bodyLinesOf s ++ extra) from rfl, hbe,
      show joinNl (s.title :: l :: ls) = s.title ++ '\n' :: joinNl (l :: ls) from rfl]
    simp

theorem lazySplit_content {pre post : Chars} (hpre : pre ≠ [])
    (hsub : hasSub (("## ").data) pre = false)
    (hpost : post = ['\n'] ∨ (∃ q, post = ("## ").data ++ q)) :
    lazySplit (pre ++ post) = some (pre, post) := by
  apply lazySplit_exact pre post hpre
  · rcases hpost with rfl | ⟨q, rfl⟩
    · decide
    · rw [lookaheadOk, isPrefixOf_append_self]
      simp
  · intro t ht htne hu
    obtain ⟨u, hune, hut⟩ := hu
    have hpostne : post ≠ [] := by
      rcases hpost with rfl | ⟨q, rfl⟩ <;> simp
    rw [lookaheadOk]
    have h1 : (t ++ post).isEmpty = false := by
      cases t with
      | nil => exact absurd rfl ht
      | cons c t' => rfl
    have h2 : ((t ++ post) == ['\n']) = false := by
      have hne2 : t ++ post ≠ ['\n'] := by
        intro hcon
        have hlc := congrArg List.length hcon
        simp at hlc
        have hlt : 1 ≤ t.length := by
          cases t with
          | nil => exact absurd rfl ht
          | cons c t' => simp
        have hlp : 1 ≤ post.length := by
          cases post with
          | nil => exact absurd rfl hpostne
          | cons c p' => simp
        omega
      exact beq_eq_false_iff_ne.mpr hne2
    have h3 : (("## ").data).isPrefixOf (t ++ post) = false := by
      have hpostpf : (['#', ' '] : Chars).isPrefixOf post = false := by
        rcases hpost with rfl | ⟨q, rfl⟩
        · decide
        · rw [show (("## ").data ++ q : Chars) = '#' :: '#' :: ' ' :: q from rfl]
          simp [List.isPrefixOf]
      have hpostsp : ([' '] : Chars).isPrefixOf post = false := by
        rcases hpost with rfl | ⟨q, rfl⟩
        · decide
        · rw [show (("## ").data ++ q : Chars) = '#' :: '#' :: ' ' :: q from rfl]
          simp [List.isPrefixOf]
      cases t with
      | nil => exact absurd rfl ht
      | cons c t1 =>
        cases t1 with
        | nil =>
          rw [show (([c] : Chars) ++ post) = c :: post from rfl,
            show ((("## ").data).isPrefixOf (c :: post)) =
              (('#' == c) && (['#', ' '] : Chars).isPrefixOf post) from rfl,
            hpostpf]
          simp
        | cons d t2 =>
          cases t2 with
          | nil =>
            rw [show (([c, d] : Chars) ++ post) = c :: d :: post from rfl,
              show ((("## ").data).isPrefixOf (c :: d :: post)) =
                (('#' == c) && (('#' == d) &&
                  ([' '] : Chars).isPrefixOf post)) from rfl,
              hpostsp]
            simp
          | cons e t3 =>
            cases hc : (("## ").data).isPrefixOf ((c :: d :: e :: t3) ++ post) with
            | false => rfl
            | true =>
              have hshort := isPrefixOf_short (c :: d :: e :: t3) post hc (by simp)
              have := hasSub_of_suffix u (t := c :: d :: e :: t3) hshort
              rw [hut] at this
              rw [this] at hsub
              exact absurd hsub (by simp)
    rw [h1, h2, h3]
    rfl

theorem tryMatch_marker (s : Slide) (hwf : wellFormedSlide s = true)
    (extra : List Chars) (hex : ∀ l ∈ extra, l = []) (post : Chars)
    (hpost : post = ['\n'] ∨ (∃ q, post = ("## ").data ++ q)) :
    tryMatch (markerText s ++ (contentFor s extra ++ post)) =
      some ((("Slide ").data) ++ natToChars s.slide_number, contentFor s extra, post) := by
  have hshape : markerText s ++ (contentFor s extra ++ post) =
      ("## Slide ").data ++ (natToChars s.slide_number ++
        (':' :: ' ' :: (contentFor s extra ++ post))) := by
    rw [markerText, List.append_assoc, List.append_assoc]
    rfl
  rw [hshape]
  simp only [tryMatch]
  rw [isPrefixOf_append_self, if_pos rfl]
  rw [show (("## Slide ").data ++ (natToChars s.slide_number ++
      (':' :: ' ' :: (contentFor s extra ++ post)))).drop 9 =
      natToChars s.slide_number ++ (':' :: ' ' :: (contentFor s extra ++ post)) from by
    rw [show (9 : Nat) = (("## Slide ").data).length from rfl, List.drop_left]]
  obtain ⟨htk, hdw⟩ := takeWhile_all_append (natToChars s.slide_number)
    (' ' :: (contentFor s extra ++ post)) (natToChars_digits s.slide_number)
    (show Char.isDigit ':' = false from by decide)
  rw [htk, hdw]
  have hie : (natToChars s.slide_number).isEmpty = false := by
    cases hnn : natToChars s.slide_number with
    | nil => exact absurd hnn (natToChars_ne_nil s.slide_number)
    | cons a l => rfl
  rw [if_pos (by
    rw [hie, show ((": ").data).isPrefixOf
      (':' :: ' ' :: (contentFor s extra ++ post)) = true from by
        simp [List.isPrefixOf]]
    rfl)]
  rw [show ((':' :: ' ' :: (contentFor s extra ++ post) : Chars)).drop 2 =
    contentFor s extra ++ post from rfl]
  rw [lazySplit_content (contentFor_ne_nil s hwf extra)
    (hasSub_hh_content s hwf extra hex) hpost]

theorem joinNl_cons_ne (x : Chars) {xs : List Chars} (h : xs ≠ []) :
    joinNl (x :: xs) = x ++ '\n' :: joinNl xs := by
  cases xs with
  | nil => exact absurd rfl h
  | cons y ys => rfl

theorem block_single (s : Slide) :
    joinNl (slideToLines s) = markerText s ++ (contentFor s [] ++ ['\n']) := by
  rw [slideToLines_decomp, joinNl_cons_ne _ (by simp)]
  cases hb : bodyLinesOf s with
  | nil =>
    rw [contentFor, hb]
    show (("## Slide ").data ++ natToChars s.slide_number ++ (": ").data ++ s.title)
      ++ '\n' :: joinNl ([] ++ [[]]) = markerText s ++ (joinNl ([s.title] ++ []) ++ ['\n'])
    rw [markerText]
    simp [joinNl]
  | cons l ls =>
    rw [joinNl_append (l :: ls) [[]] (by simp) (by simp), contentFor, hb]
    show (("## Slide ").data ++ natToChars s.slide_number ++ (": ").data ++ s.title)
      ++ '\n' :: (joinNl (l :: ls) ++ '\n' :: joinNl [[]]) =
      markerText s ++ (joinNl ((s.title :: l :: ls) ++ []) ++ ['\n'])
    rw [markerText, List.append_nil, joinNl_cons_ne s.title (by simp),
      show joinNl ([[]] : List Chars) = [] from rfl]
    simp

theorem contentFor_sep (s : Slide) :
    contentFor s [[], []] = contentFor s [] ++ ['\n', '\n'] := by
  rw [contentFor, contentFor, List.append_nil,
    joinNl_append (s.title :: bodyLinesOf s) [[], []] (by simp) (by simp)]
  show joinNl (s.title :: bodyLinesOf s) ++ '\n' :: joinNl [[], []] = _
  rw [show joinNl ([[], []] : List Chars) = ['\n'] from rfl]

theorem slideToLines_ne_nil (s : Slide) : slideToLines s ≠ [] := by
  rw [slideToLines_decomp]
  simp

theorem blockText_single (s : Slide) :
    blockText [s] = markerText s ++ (contentFor s [] ++ ['\n']) := by
  rw [blockText, List.map_cons, List.map_nil, List.flatten_cons, List.flatten_nil,
    List.append_nil]
  exact block_single s

theorem blockText_cons₂ (s r : Slide) (rest' : List Slide) :
    blockText (s :: r :: rest') =
      markerText s ++ (contentFor s [[], []] ++ blockText (r :: rest')) := by
  rw [blockText, List.map_cons, List.flatten_cons]
  have hne2 : ((r :: rest').map slideToLines).flatten ≠ [] := by
    rw [List.map_cons, List.flatten_cons]
    have := slideToLines_ne_nil r
    cases h : slideToLines r with
    | nil => exact absurd h this
    | cons a l => simp [h]
  rw [joinNl_append (slideToLines s) _ (slideToLines_ne_nil s) hne2,
    block_single s, contentFor_sep s]
  rw [show blockText (r :: rest') = joinNl (((r :: rest').map slideToLines).flatten)
    from rfl]
  simp

theorem markerText_hh (s : Slide) :
    ∃ q, markerText s = ("## ").data ++ q := by
  refine ⟨("Slide ").data ++ natToChars s.slide_number ++ (": ").data, ?_⟩
  rw [markerText, show ("## Slide ").data = ("## ").data ++ ("Slide ").data from
    by decide]
  simp

theorem blockText_head_hh (s : Slide) (rest : List Slide) :
    ∃ q, blockText (s :: rest) = ("## ").data ++ q := by
  obtain ⟨q0, hq0⟩ := markerText_hh s
  cases rest with
  | nil =>
    refine ⟨q0 ++ (contentFor s [] ++ ['\n']), ?_⟩
    rw [blockText_single, hq0]
    simp
  | cons r rest' =>
    refine ⟨q0 ++ (contentFor s [[], []] ++ blockText (r :: rest')), ?_⟩
    rw [blockText_cons₂, hq0]
    simp

theorem tryMatch_nil : tryMatch [] = none := by decide

theorem findMarkers_some {cs : Chars} {x : Chars × Chars × Chars}
    (h : tryMatch cs = some x) :
    findMarkers cs = (x.1, x.2.1) :: findMarkers x.2.2 := by
  cases cs with
  | nil => rw [tryMatch_nil] at h; exact absurd h (by simp)
  | cons c cs' => exact findMarkers_cons_some h

theorem parse_blockText : ∀ (ss : List Slide),
    (∀ s ∈ ss, wellFormedSlide s = true) →
    ∀ i, numberSlides i (findMarkers (blockText ss)) = renumber i ss := by
  intro ss
  induction ss with
  | nil => intro _ i; rfl
  | cons s rest ih =>
    intro hwf i
    have hwfs : wellFormedSlide s = true := hwf s (by simp)
    cases rest with
    | nil =>
      rw [blockText_single]
      have hm := tryMatch_marker s hwfs [] (by simp) ['\n'] (Or.inl rfl)
      rw [findMarkers_some hm]
      rw [show findMarkers ['\n'] = [] from by decide]
      show mkSlideRec i (contentFor s []) :: numberSlides (i + 1) [] = renumber i [s]
      rw [show numberSlides (i + 1) ([] : List (Chars × Chars)) = [] from rfl,
        show contentFor s [] = joinNl ((s.title :: bodyLinesOf s) ++ []) from rfl,
        mkSlideRec_serialized s hwfs [] (by simp) i]
      rfl
    | cons r rest' =>
      rw [blockText_cons₂]
      have hm := tryMatch_marker s hwfs [[], []]
        (by intro l hl; rcases List.mem_cons.mp hl with rfl | hl; · rfl
            · rcases List.mem_cons.mp hl with rfl | hl; · rfl
              · simp at hl)
        (blockText (r :: rest')) (Or.inr (blockText_head_hh r rest'))
      rw [findMarkers_some hm]
      show mkSlideRec i (contentFor s [[], []]) ::
        numberSlides (i + 1) (findMarkers (blockText (r :: rest'))) = renumber i (s :: r :: rest')
      rw [ih (fun s' hs' => hwf s' (by simp [hs'])) (i + 1),
        show contentFor s [[], []] =
          joinNl ((s.title :: bodyLinesOf s) ++ [[], []]) from rfl,
        mkSlideRec_serialized s hwfs [[], []]
          (by intro l hl; rcases List.mem_cons.mp hl with rfl | hl; · rfl
              · rcases List.mem_cons.mp hl with rfl | hl; · rfl
                · simp at hl) i]
      rfl

/-- C8 amended: for every outline whose slides are well-formed for the text
format (stripped single-line title not starting with `-`, stripped
single-line bullets not starting with the hint-marker text, hint absent or a
non-empty stripped single line, and no field containing the `## ` marker
terminator), serializing with `_slides_to_markdown` and re-parsing with
`parse_presentation_skeleton` yields a sequence equal to the original in
title, bullets and visual hint for every slide, with numbers recomputed as
`1..N` from position. -/
theorem C8_parse_round_trip (ss : List Slide)
    (hwf : ∀ s ∈ ss, wellFormedSlide s = true) :
    parse_presentation_skeleton (slides_to_markdown ss) = renumber 1 ss := by
  cases ss with
  | nil =>
    rw [slides_to_markdown]
    show numberSlides 1 (findMarkers (joinNl [("# Expanded Presentation\n").data])) = []
    rw [show joinNl [("# Expanded Presentation\n").data] =
      ("# Expanded Presentation\n").data from rfl]
    rw [show findMarkers (("# Expanded Presentation\n").data) = [] from by decide]
    rfl
  | cons s rest =>
    rw [slides_to_markdown,
      show (("# Expanded Presentation\n").data ::
          ((s :: rest).map slideToLines).flatten) =
        [("# Expanded Presentation\n").data] ++
          ((s :: rest).map slideToLines).flatten from rfl,
      joinNl_append (A := [("# Expanded Presentation\n").data])
        (B := ((s :: rest).map slideToLines).flatten) (by simp)
        (by rw [List.map_cons, List.flatten_cons]
            have := slideToLines_ne_nil s
            cases h : slideToLines s with
            | nil => exact absurd h this
            | cons a l => simp [h])]
    rw [parse_presentation_skeleton,
      show joinNl [("# Expanded Presentation\n").data] ++
          '\n' :: joinNl (((s :: rest).map slideToLines).flatten) =
        (("# Expanded Presentation\n").data ++ ['\n']) ++ blockText (s :: rest) from by
          rw [blockText]; simp [joinNl]]
    rw [findMarkers_skip _ _ (by decide) (by decide)]
    exact parse_blockText (s :: rest) hwf 1

/-- C8 counterexample: the round trip is not the identity on all outlines —
serializing a slide whose bullet is `**Visual suggestion:** art` emits the
line `- **Visual suggestion:** art`, which re-parses as a visual hint, not a
bullet, so the round trip loses the bullet (numbers here are already 1..N, so
renumbering is not the cause). -/
theorem C8_round_trip_counterexample :
    parse_presentation_skeleton (slides_to_markdown c8cx) =
      [{ slide_number := 1, title := ("T").data, bullet_points := [],
         visual_suggestion := some (("art").data) }] ∧
    parse_presentation_skeleton (slides_to_markdown c8cx) ≠ c8cx :=
  ⟨by decide, by decide⟩

theorem C8_parse_round_trip_witness :
    parse_presentation_skeleton (slides_to_markdown c8w) = renumber 1 c8w :=
  C8_parse_round_trip c8w (by decide)
